import Mathlib

/-!
# Shallow embedding of the LitecoinZ wallet ledger (src/wallet/wallet.cpp)

This file models the wallet transaction ledger, the spend index, the
per-note incremental-witness cache and parts of transaction construction
from `src/wallet/wallet.cpp`, and proves properties of the model.

Conventions:
  * `uint256` values (transaction ids, block hashes, nullifiers) are
    modelled as `Nat`; `0` plays the role of the null hash.
  * C++ `int` / `int64_t` quantities (heights, depths, amounts, order
    positions) are modelled as `Int`; none of the verified properties
    depends on machine-width overflow.
  * `std::map` / `std::multimap` are modelled as association lists
    (first-match lookup; unique keys stated as hypotheses where needed).
  * The witness buffer of a note is a `List` whose HEAD is the deque
    front, i.e. the NEWEST witness (the code pushes to and reads from
    the front, and trims from the back).
-/

/-- Modelled from the spec: `WITNESS_CACHE_SIZE` is declared in `wallet.h`,
which is not among the sampled sources; the spec fixes it as "a fixed small
bound, e.g. 100". -/
def WITNESS_CACHE_SIZE : Nat := 100

/-- An incremental Merkle witness.  Its internal Merkle structure lives in
libzcash (outside the sampled sources); for the ledger-level properties only
identity and the append operation matter, so a witness is modelled as the
list of note commitments appended to it. -/
abbrev Witness := List Nat

/-- Per-note wallet metadata (`SproutNoteData` / `SaplingNoteData`): the
cached witness ring buffer (newest first), the height the front witness is
valid at, the optional cached nullifier, and the root-validated flag used by
`VerifyAndSetInitialWitness`. -/
structure NoteData where
  witnesses : List Witness := []
  witnessHeight : Int := -1
  nullifier : Option Nat := none
  witnessRootValidated : Bool := false
  deriving Repr, DecidableEq

/-- Per-note body of `CWallet::DecrementNoteWitnesses` (wallet.cpp:1469-1506):
on disconnecting the block at height `nHeight`, a note with a cached
nullifier whose spend depth is within the cache bound and whose witness
height is not above the disconnected block pops the FRONT (newest) witness,
provided more than one entry is present, and records height `nHeight - 1`. -/
def decrementNoteWitness (spendDepth : Int) (nHeight : Int) (nd : NoteData) : NoteData :=
  if nd.nullifier.isSome ∧ spendDepth ≤ (WITNESS_CACHE_SIZE : Int) then
    if nd.witnessHeight ≤ nHeight then
      if 1 < nd.witnesses.length then
        { nd with witnesses := nd.witnesses.tail, witnessHeight := nHeight - 1 }
      else nd
    else nd
  else nd

/-- `nd->witnesses.push_front(nd->witnesses.front())` (wallet.cpp:1767,1790).
C++ `front()` on an empty deque is undefined; the call sites guard it via
`witnessHeight == blockHeight - 1`, which only holds for a note that already
carries a witness, so the empty case is modelled as a no-op. -/
def pushFrontDup : List Witness → List Witness
  | [] => []
  | w :: ws => w :: w :: ws

/-- Appending the block's note commitments to the front witness
(wallet.cpp:1772-1780,1795-1800); a no-op on an empty buffer. -/
def appendToFront (cms : List Nat) : List Witness → List Witness
  | [] => []
  | w :: ws => (w ++ cms) :: ws

/-- Per-note body of the per-block loop of `CWallet::BuildWitnessCache`
(wallet.cpp:1763-1782 for Sprout, 1786-1802 for Sapling): for a note with a
cached nullifier whose witness height is exactly one below the new block and
whose spend depth is within the cache bound, duplicate the front witness,
trim the back while the buffer exceeds `WITNESS_CACHE_SIZE`, append the
block's note commitments to the front entry, and advance the height. -/
def buildWitnessStep (spendDepth : Int) (blockHeight : Int) (blockCms : List Nat)
    (nd : NoteData) : NoteData :=
  if nd.nullifier.isSome ∧ nd.witnessHeight = blockHeight - 1 ∧
      spendDepth ≤ (WITNESS_CACHE_SIZE : Int) then
    { nd with
      witnesses := appendToFront blockCms ((pushFrontDup nd.witnesses).take WITNESS_CACHE_SIZE),
      witnessHeight := blockHeight }
  else nd

/-- One witness-cache event touching a single note: an `extend` step of
`BuildWitnessCache` folding in a new block, or a `rewind` step of
`DecrementNoteWitnesses`. -/
inductive WitnessOp where
  | extend (spendDepth blockHeight : Int) (blockCms : List Nat)
  | rewind (spendDepth nHeight : Int)
  deriving Repr, DecidableEq

def applyWitnessOp (nd : NoteData) : WitnessOp → NoteData
  | .extend d h cms => buildWitnessStep d h cms nd
  | .rewind d h => decrementNoteWitness d h nd

def applyWitnessOps (nd : NoteData) (ops : List WitnessOp) : NoteData :=
  ops.foldl applyWitnessOp nd

/-- Confirmation status of a wallet transaction (`CWalletTx::Status`,
declared in wallet.h; the four states and their transitions are visible in
wallet.cpp through `setUnconfirmed` / `setConflicted` / `setAbandoned` and
the `m_confirm.status` comparisons). -/
inductive TxStatus where
  | UNCONFIRMED
  | CONFIRMED
  | CONFLICTED
  | ABANDONED
  deriving Repr, DecidableEq

abbrev TxId := Nat
abbrev BlockHash := Nat

/-- `COutPoint`: a (transaction id, output index) pair. -/
abbrev Outpoint := TxId × Nat

/-- `CWalletTx::ABANDON_HASH` (wallet.cpp:270): the pseudo block hash an
abandoned transaction records. -/
def ABANDON_HASH : BlockHash := 1

/-- A wallet transaction, restricted to the fields the verified operations
read or write.  `vin` is the list of previous outpoints the payload spends,
`sproutNullifiers` the nullifiers in `tx->vJoinSplit` (flattened) and
`saplingNullifiers` those of `tx->vShieldedSpend`.  `hasWitness` models
`tx->HasWitness()`; `fInMempool` is the cached mempool flag returned by
`CWalletTx::InMempool` (wallet.cpp:3832-3835). -/
structure WalletTx where
  status : TxStatus := .UNCONFIRMED
  hashBlock : BlockHash := 0
  nIndex : Int := 0
  vin : List Outpoint := []
  sproutNullifiers : List Nat := []
  saplingNullifiers : List Nat := []
  isCoinBase : Bool := false
  mapSproutNoteData : List ((TxId × Nat × Nat) × NoteData) := []
  mapSaplingNoteData : List ((TxId × Nat) × NoteData) := []
  fFromMe : Bool := false
  hasWitness : Bool := false
  fInMempool : Bool := false
  nOrderPos : Int := -1
  deriving Repr, DecidableEq

def WalletTx.isUnconfirmed (tx : WalletTx) : Bool := tx.status == .UNCONFIRMED

def WalletTx.isConflicted (tx : WalletTx) : Bool := tx.status == .CONFLICTED

def WalletTx.isAbandoned (tx : WalletTx) : Bool := tx.status == .ABANDONED

/-- The `interfaces::Chain::Lock` collaborator, reduced to the one query the
verified code paths use: `getBlockDepth`, which returns the depth of a block
in the main chain and `0` for an unknown block or one not in the main
chain. -/
structure Chain where
  blockDepth : BlockHash → Nat

/-- `CWalletTx::GetDepthInMainChain` (wallet.cpp:6757-6766): 0 for an
unconfirmed or abandoned transaction, otherwise the recorded block's depth,
negated for a conflicted transaction. -/
def WalletTx.GetDepthInMainChain (tx : WalletTx) (ch : Chain) : Int :=
  if tx.isUnconfirmed || tx.isAbandoned then 0
  else (ch.blockDepth tx.hashBlock : Int) * (if tx.isConflicted then -1 else 1)

/-- The wallet ledger state touched by the verified operations: the
transaction map, the three spend indexes (multimaps modelled as association
lists in insertion order) and the order-position counter. -/
structure Wallet where
  mapWallet : List (TxId × WalletTx) := []
  mapTxSpends : List (Outpoint × TxId) := []
  mapTxSproutNullifiers : List (Nat × TxId) := []
  mapTxSaplingNullifiers : List (Nat × TxId) := []
  nOrderPosNext : Int := 0
  deriving Repr, DecidableEq

/-- First-match lookup in the wallet transaction map. -/
def wlookup (l : List (TxId × WalletTx)) (h : TxId) : Option WalletTx :=
  (l.find? (fun e => e.1 == h)).map (·.2)

/-- In-place overwrite of the record stored under `h` (through the
`CWalletTx&` reference the C++ loops obtain from the map). -/
def wupdate (l : List (TxId × WalletTx)) (h : TxId) (tx : WalletTx) :
    List (TxId × WalletTx) :=
  l.map (fun e => if e.1 = h then (h, tx) else e)

/-- `mapWallet.find(h)` (first entry with the given key). -/
def Wallet.lookupTx (w : Wallet) (h : TxId) : Option WalletTx :=
  wlookup w.mapWallet h

/-- Overwriting the wallet transaction stored under key `h` in place, as the
C++ loops do through the `CWalletTx&` reference obtained from the map. -/
def Wallet.updateTx (w : Wallet) (h : TxId) (tx : WalletTx) : Wallet :=
  { w with mapWallet := wupdate w.mapWallet h tx }

def Wallet.txKeys (w : Wallet) : List TxId := w.mapWallet.map (·.1)

/-- The per-spender test shared by the three spent queries
(wallet.cpp:1328-1333, 1348-1353, 1364-1369): the registered transaction is
in the wallet with `depth > 0`, or `depth == 0` and not abandoned. -/
def spenderQualifies (ch : Chain) (w : Wallet) (wtxid : TxId) : Bool :=
  match w.lookupTx wtxid with
  | some wtx =>
      decide (0 < wtx.GetDepthInMainChain ch) ||
        (decide (wtx.GetDepthInMainChain ch = 0) && !wtx.isAbandoned)
  | none => false

/-- Shared body of the three spent queries: some transaction of the given
list qualifies (wallet.cpp:1326-1335, 1347-1355, 1363-1371). -/
def spentIn (ch : Chain) (w : Wallet) (ids : List TxId) : Bool :=
  ids.any (spenderQualifies ch w)

/-- `CWallet::IsSpent` (wallet.cpp:1320-1337): the transparent outpoint is
spent if any transaction registered for it in `mapTxSpends` qualifies. -/
def Wallet.IsSpent (w : Wallet) (ch : Chain) (outpoint : Outpoint) : Bool :=
  spentIn ch w ((w.mapTxSpends.filter (fun e => e.1 == outpoint)).map (·.2))

/-- `CWallet::IsSproutSpent` (wallet.cpp:1343-1357). -/
def Wallet.IsSproutSpent (w : Wallet) (ch : Chain) (nullifier : Nat) : Bool :=
  spentIn ch w ((w.mapTxSproutNullifiers.filter (fun e => e.1 == nullifier)).map (·.2))

/-- `CWallet::IsSaplingSpent` (wallet.cpp:1359-1373). -/
def Wallet.IsSaplingSpent (w : Wallet) (ch : Chain) (nullifier : Nat) : Bool :=
  spentIn ch w ((w.mapTxSaplingNullifiers.filter (fun e => e.1 == nullifier)).map (·.2))

/-- The spec sentence behind C5, written out as its own definition for
comparison with the code: a spender counts only if non-conflicted,
non-abandoned, with depth ≥ 0, and a depth-0 spender must additionally be in
the mempool. -/
def spentInSpec (ch : Chain) (w : Wallet) (ids : List TxId) : Bool :=
  ids.any (fun wtxid =>
    match w.lookupTx wtxid with
    | some wtx =>
        !wtx.isConflicted && !wtx.isAbandoned &&
          decide (0 ≤ wtx.GetDepthInMainChain ch) &&
          (decide (wtx.GetDepthInMainChain ch ≠ 0) || wtx.fInMempool)
    | none => false)

/-- The C5 spec reading of `IsSpent`, built on `spentInSpec`. -/
def Wallet.IsSpentSpec (w : Wallet) (ch : Chain) (outpoint : Outpoint) : Bool :=
  spentInSpec ch w ((w.mapTxSpends.filter (fun e => e.1 == outpoint)).map (·.2))

/-- `CWallet::IncOrderPosNext` (wallet.cpp:1967-1977): returns the current
counter value and post-increments it (persistence is outside the model). -/
def Wallet.IncOrderPosNext (w : Wallet) : Int × Wallet :=
  (w.nOrderPosNext, { w with nOrderPosNext := w.nOrderPosNext + 1 })

/-- The stream of values a sequence of `IncOrderPosNext` calls returns. -/
def incOrderOutputs (w : Wallet) : Nat → List Int
  | 0 => []
  | n + 1 => w.IncOrderPosNext.1 :: incOrderOutputs w.IncOrderPosNext.2 n

/-- `CWallet::AddToTransparentSpends` (wallet.cpp:1375-1384); the
`SyncMetaData` call and locked-coin bookkeeping are outside the modelled
state. -/
def Wallet.AddToTransparentSpends (w : Wallet) (outpoint : Outpoint) (wtxid : TxId) : Wallet :=
  { w with mapTxSpends := w.mapTxSpends ++ [(outpoint, wtxid)] }

/-- `CWallet::AddToSproutSpends` (wallet.cpp:1386-1393). -/
def Wallet.AddToSproutSpends (w : Wallet) (nullifier : Nat) (wtxid : TxId) : Wallet :=
  { w with mapTxSproutNullifiers := w.mapTxSproutNullifiers ++ [(nullifier, wtxid)] }

/-- `CWallet::AddToSaplingSpends` (wallet.cpp:1395-1402). -/
def Wallet.AddToSaplingSpends (w : Wallet) (nullifier : Nat) (wtxid : TxId) : Wallet :=
  { w with mapTxSaplingNullifiers := w.mapTxSaplingNullifiers ++ [(nullifier, wtxid)] }

/-- `CWallet::AddToSpends` (wallet.cpp:1404-1423): register every
transparent prevout, Sprout nullifier and Sapling nullifier of the
transaction; coinbases spend nothing.  The C++ asserts the transaction is in
`mapWallet`; every modelled call site inserts it first, so the missing case
is a no-op here. -/
def Wallet.AddToSpends (w : Wallet) (wtxid : TxId) : Wallet :=
  match w.lookupTx wtxid with
  | none => w
  | some thisTx =>
    if thisTx.isCoinBase then w
    else
      let w1 := thisTx.vin.foldl (fun acc op => acc.AddToTransparentSpends op wtxid) w
      let w2 := thisTx.sproutNullifiers.foldl (fun acc nf => acc.AddToSproutSpends nf wtxid) w1
      thisTx.saplingNullifiers.foldl (fun acc nf => acc.AddToSaplingSpends nf wtxid) w2

/-- First-match lookup in a note-data association map (`std::map::find` /
`count`). -/
def alookup {K : Type} [DecidableEq K] (m : List (K × NoteData)) (k : K) : Option NoteData :=
  (m.find? (fun e => decide (e.1 = k))).map (·.2)

/-- In-place modification of the record stored under `k` (`std::map::at`
followed by a member assignment).  Entries under other keys are untouched. -/
def amod {K : Type} [DecidableEq K] (m : List (K × NoteData)) (k : K)
    (f : NoteData → NoteData) : List (K × NoteData) :=
  m.map (fun e => if e.1 = k then (e.1, f e.2) else e)

/-- One iteration of the witness-preserving copy loop inside
`CWallet::UpdatedNoteData` (wallet.cpp:2327-2333 for Sprout, 2343-2349 for
Sapling), processing the stored entry `e` against the accumulator `tmp`
(initially the incoming map): if the outpoint is in `tmp` and the stored
record has witnesses, the stored witnesses replace the incoming ones; then
`tmp.at(...)` assigns the stored witness height UNCONDITIONALLY, so a stored
outpoint absent from the incoming map throws `std::out_of_range`, modelled
as `none`. -/
def mergeStoredNote {K : Type} [DecidableEq K] (tmp : List (K × NoteData))
    (e : K × NoteData) : Option (List (K × NoteData)) :=
  let tmp1 :=
    if (alookup tmp e.1).isSome ∧ 0 < e.2.witnesses.length then
      amod tmp e.1 (fun nd => { nd with witnesses := e.2.witnesses })
    else tmp
  if (alookup tmp1 e.1).isSome then
    some (amod tmp1 e.1 (fun nd => { nd with witnessHeight := e.2.witnessHeight }))
  else none

/-- One variant half of `CWallet::UpdatedNoteData` (wallet.cpp:2323-2336 and
2338-2353): if the incoming map is empty or equal to the stored one, nothing
changes; otherwise the incoming map is merged with the stored witnesses and
replaces the stored map, reporting a change. -/
def mergeNoteMap {K : Type} [DecidableEq K] (incoming stored : List (K × NoteData)) :
    Option (List (K × NoteData) × Bool) :=
  if incoming.isEmpty || decide (incoming = stored) then some (stored, false)
  else (stored.foldlM mergeStoredNote incoming).map (fun m => (m, true))

/-- `CWallet::UpdatedNoteData` (wallet.cpp:2321-2356), merging both note-data
maps of an incoming transaction copy into the stored transaction and
reporting whether anything changed. -/
def UpdatedNoteData (wtxIn wtx : WalletTx) : Option (WalletTx × Bool) := do
  let sp ← mergeNoteMap wtxIn.mapSproutNoteData wtx.mapSproutNoteData
  let sa ← mergeNoteMap wtxIn.mapSaplingNoteData wtx.mapSaplingNoteData
  some ({ wtx with mapSproutNoteData := sp.1, mapSaplingNoteData := sa.1 },
    sp.2 || sa.2)

/-- `CWallet::AddToWallet` (wallet.cpp:2227-2319), restricted to the ledger
state: returns the new state together with `(fInsertedNew, fUpdated)`.  On
first insertion (2248-2259) the transaction receives the next order
position and its spends are registered; time fields, persistence and UI
notification are outside the model.  On update (2261-2290) the confirmation
status is copied when different, note data is merged witness-preservingly,
`fFromMe` is upgraded, and a witness-carrying payload replaces a stripped
one.  The asserts at 2270-2271 (equal status implies equal block/index) are
not modelled.  `none` propagates an `std::out_of_range` from
`UpdatedNoteData`. -/
def Wallet.AddToWallet (w : Wallet) (hash : TxId) (wtxIn : WalletTx) :
    Option (Wallet × Bool × Bool) :=
  match w.lookupTx hash with
  | none =>
    let p := w.IncOrderPosNext
    let wtx := { wtxIn with nOrderPos := p.1 }
    let w1 := { p.2 with mapWallet := p.2.mapWallet ++ [(hash, wtx)] }
    some (w1.AddToSpends hash, true, false)
  | some wtxOld =>
    let statusChanged : Bool := decide (wtxIn.status ≠ wtxOld.status)
    let wtx1 :=
      if statusChanged then
        { wtxOld with
          status := wtxIn.status,
          nIndex := wtxIn.nIndex,
          hashBlock := wtxIn.hashBlock }
      else wtxOld
    match UpdatedNoteData wtxIn wtx1 with
    | none => none
    | some (wtx2, noteChanged) =>
      let fromMeChanged : Bool := wtxIn.fFromMe && decide (wtxIn.fFromMe ≠ wtx2.fFromMe)
      let wtx3 := if fromMeChanged then { wtx2 with fFromMe := wtxIn.fFromMe } else wtx2
      let witnessUpgrade : Bool := wtxIn.hasWitness && !wtx3.hasWitness
      let wtx4 :=
        if witnessUpgrade then
          { wtx3 with
            vin := wtxIn.vin,
            sproutNullifiers := wtxIn.sproutNullifiers,
            saplingNullifiers := wtxIn.saplingNullifiers,
            isCoinBase := wtxIn.isCoinBase,
            hasWitness := wtxIn.hasWitness }
        else wtx3
      let fUpdated := statusChanged || noteChanged || fromMeChanged || witnessUpgrade
      some (w.updateTx hash wtx4, false, fUpdated)

/-- Ordered insertion into the `std::set<uint256> todo` worklist: ascending
order, no duplicates (the loops pop `*todo.begin()`, the minimum). -/
def todoInsert (x : TxId) : List TxId → List TxId
  | [] => [x]
  | y :: ys =>
    if x = y then y :: ys
    else if x < y then x :: y :: ys
    else y :: todoInsert x ys

/-- The wtxids registered in `mapTxSpends` under any output of `now`
(wallet.cpp:2544-2550 and 2598-2604: iterate from
`lower_bound(COutPoint(now, 0))` while the outpoint hash equals `now`). -/
def Wallet.spendersOf (w : Wallet) (now : TxId) : List TxId :=
  (w.mapTxSpends.filter (fun e => e.1.1 == now)).map (·.2)

/-- Shared worklist walk of `CWallet::MarkConflicted` (wallet.cpp:2581-2609)
and `CWallet::AbandonTransaction` (wallet.cpp:2524-2555): pop the minimum
id, record it as done, look the transaction up (`none` models the failed
`assert(it != mapWallet.end())`), run the loop assertion `chk` (`none`
models its failure), and when the guard `g` holds, first run the in-branch
assertion `chkm` (`none` on failure: for `AbandonTransaction` this is the
`assert(!wtx.InMempool())` at wallet.cpp:2537, which aborts the program
mid-cascade), then overwrite the transaction with `m` of it and enqueue
every registered spender of its outputs that is not yet done.
`MarkConflicted` has neither assertion and passes constant `true` for both
`chk` and `chkm`.  `fuel` bounds the number of iterations;
`spendWalk_complete` below shows the fuel the two callers pass is never
exhausted. -/
def spendWalk (chk g chkm : WalletTx → Bool) (m : WalletTx → WalletTx) :
    Nat → List TxId → List TxId → Wallet → Option Wallet
  | 0, todo, _, w => if todo.isEmpty then some w else none
  | _ + 1, [], _, w => some w
  | fuel + 1, now :: todo, done, w =>
    match w.lookupTx now with
    | none => none
    | some wtx =>
      if chk wtx = false then none
      else if g wtx then
        if chkm wtx = false then none
        else
          let w1 := w.updateTx now (m wtx)
          let todo1 := (w.spendersOf now).foldl
            (fun t y => if y ∈ now :: done then t else todoInsert y t) todo
          spendWalk chk g chkm m fuel todo1 (now :: done) w1
      else
        spendWalk chk g chkm m fuel todo (now :: done) w

/-- The guard of the `MarkConflicted` loop (wallet.cpp:2589): the conflicting
block is deeper than the transaction's current confirmation count. -/
def conflictGuard (ch : Chain) (conflictconfirms : Int) (wtx : WalletTx) : Bool :=
  decide (conflictconfirms < wtx.GetDepthInMainChain ch)

/-- Marking a transaction conflicted with `hashBlock`
(wallet.cpp:2592-2594). -/
def conflictMark (hashBlock : BlockHash) (wtx : WalletTx) : WalletTx :=
  { wtx with status := .CONFLICTED, nIndex := 0, hashBlock := hashBlock }

/-- `CWallet::MarkConflicted` (wallet.cpp:2560-2610): compute
`conflictconfirms` from the conflicting block's depth; if it cannot be
determined as negative (unknown block or not in the main chain), do nothing;
otherwise run the conflict-propagation walk from `hashTx`. -/
def Wallet.MarkConflicted (w : Wallet) (ch : Chain) (hashBlock : BlockHash)
    (hashTx : TxId) : Option Wallet :=
  let conflictconfirms : Int := -(ch.blockDepth hashBlock : Int)
  if 0 ≤ conflictconfirms then some w
  else
    spendWalk (fun _ => true) (conflictGuard ch conflictconfirms) (fun _ => true)
      (conflictMark hashBlock) (w.mapTxSpends.length + 2) [hashTx] [] w

/-- The guard of the `AbandonTransaction` loop (wallet.cpp:2535): zero
confirmations and not yet abandoned. -/
def abandonGuard (ch : Chain) (wtx : WalletTx) : Bool :=
  decide (wtx.GetDepthInMainChain ch = 0) && !wtx.isAbandoned

/-- `setAbandoned` on a popped transaction (wallet.cpp:2538-2539); the
setter itself is declared in wallet.h and records `ABANDON_HASH` as the
block hash. -/
def abandonMark (wtx : WalletTx) : WalletTx :=
  { wtx with status := .ABANDONED, nIndex := 0, hashBlock := ABANDON_HASH }

/-- The loop assertion of `AbandonTransaction` (wallet.cpp:2533): a spend of
a depth-0 transaction can never be in a block. -/
def abandonCheck (ch : Chain) (wtx : WalletTx) : Bool :=
  decide (wtx.GetDepthInMainChain ch ≤ 0)

/-- The in-branch assertion of `AbandonTransaction` (wallet.cpp:2537):
`assert(!wtx.InMempool())` — a transaction about to be marked abandoned must
not sit in the mempool. -/
def abandonMempoolCheck (wtx : WalletTx) : Bool :=
  !wtx.fInMempool

/-- `CWallet::AbandonTransaction` (wallet.cpp:2504-2558): fails (`false`)
when the transaction has nonzero confirmation depth or sits in the mempool;
otherwise runs the abandon cascade and reports `true`.  The outer
`assert(it != mapWallet.end())` (2516) is modelled as `none`, as are the
cascade's assertions at 2533 (`abandonCheck`) and 2537
(`abandonMempoolCheck`). -/
def Wallet.AbandonTransaction (w : Wallet) (ch : Chain) (hashTx : TxId) :
    Option (Bool × Wallet) :=
  match w.lookupTx hashTx with
  | none => none
  | some origtx =>
    if origtx.GetDepthInMainChain ch ≠ 0 ∨ origtx.fInMempool then some (false, w)
    else
      (spendWalk (abandonCheck ch) (abandonGuard ch) abandonMempoolCheck abandonMark
        (w.mapTxSpends.length + 2) [hashTx] [] w).map (fun w1 => (true, w1))

/-- Reachability in the transparent spend graph: `SpendReach sp a c` holds
when `c` is reached from `a` through a chain of `mapTxSpends` edges, each
edge going from a transaction to one registered as spending one of its
outputs. -/
inductive SpendReach (sp : List (Outpoint × TxId)) : TxId → TxId → Prop
  | refl (a : TxId) : SpendReach sp a a
  | step {a b c : TxId} (op : Outpoint) :
      SpendReach sp a b → (op, c) ∈ sp → op.1 = b → SpendReach sp a c

/-- A transaction output as far as change handling is concerned
(`CTxOut`): an amount and a script identifier. -/
structure TxOut where
  nValue : Int
  scriptPubKey : Nat
  deriving Repr, DecidableEq

/-- The change-output decision of `CWallet::CreateTransaction`
(wallet.cpp:5034-5066).  `isDust` stands for the external
`IsDust(·, discard_rate)` predicate (policy code outside the sampled
sources); `bnb_used` reports whether the branch-and-bound selector produced
the inputs; `randPos` feeds `GetRandInt(vout.size() + 1)`.  Returns the new
output list, the change position (−1 when no change output exists) and the
new fee. -/
def addChangeOutput (isDust : TxOut → Bool) (bnb_used : Bool) (randPos : Nat)
    (scriptChange : Nat) (nValueIn nValueToSelect : Int) (nChangePosRequest : Int)
    (vout : List TxOut) (nFeeRet : Int) : Except String (List TxOut × Int × Int) :=
  let nChange := nValueIn - nValueToSelect
  if 0 < nChange then
    let newTxOut : TxOut := ⟨nChange, scriptChange⟩
    if isDust newTxOut || bnb_used then
      .ok (vout, -1, nFeeRet + nChange)
    else
      if nChangePosRequest = -1 then
        let pos := randPos % (vout.length + 1)
        .ok (vout.insertIdx pos newTxOut, (pos : Int), nFeeRet)
      else if nChangePosRequest < 0 || (vout.length : Int) < nChangePosRequest then
        .error "Change index out of range"
      else
        .ok (vout.insertIdx nChangePosRequest.toNat newTxOut, nChangePosRequest, nFeeRet)
  else .ok (vout, -1, nFeeRet)

/-- The set of wtxids registered anywhere in `mapTxSpends`: every id the
worklist walks can ever enqueue comes from here. -/
def spendIdSet (w : Wallet) : Finset TxId := (w.mapTxSpends.map (·.2)).toFinset

/-- Termination measure of `spendWalk`: pending worklist entries plus
registered spender ids not yet seen.  Every loop iteration decreases it by
exactly one. -/
def walkPotential (w : Wallet) (todo done : List TxId) : Nat :=
  todo.toFinset.card + (spendIdSet w \ (done.toFinset ∪ todo.toFinset)).card

/-- A chain view that knows no blocks. -/
def zeroChain : Chain := ⟨fun _ => 0⟩

/-- C5 counterexample wallet: one unconfirmed transaction (id 2), not
abandoned, not in the mempool, registered as spending outpoint (1, 0). -/
def C5wallet : Wallet :=
  { mapWallet := [(2, {})], mapTxSpends := [((1, 0), 2)] }

/-- C2 counterexample wallet: transaction 1 owns a Sapling note with cached
nullifier 77; transaction 2 spends that nullifier (registered in
`mapTxSaplingNullifiers`) but no transparent output of transaction 1. -/
def C2wallet : Wallet :=
  { mapWallet :=
      [(1, { mapSaplingNoteData := [((1, 0), { nullifier := some 77 })] }),
       (2, { saplingNullifiers := [77] })],
    mapTxSaplingNullifiers := [(77, 2)] }

/-- A chain view in which only block 9 is known, at depth 3. -/
def C2chain : Chain := ⟨fun h => if h = 9 then 3 else 0⟩

/-- The synthetic 3-cycle of mutual spends from the spec's testable
property: transactions 1, 2, 3, each registered as spending an output of
the previous one, closing a cycle. -/
def cycWallet : Wallet :=
  { mapWallet := [(1, {}), (2, {}), (3, {})],
    mapTxSpends := [((1, 0), 2), ((2, 0), 3), ((3, 0), 1)] }

/-- A chain view in which only block 9 is known, at depth 1. -/
def cycChain : Chain := ⟨fun h => if h = 9 then 1 else 0⟩

/-- C4 counterexample wallet: transaction 1 is conflicted with block 9. -/
def C4wallet : Wallet :=
  { mapWallet := [(1, { status := .CONFLICTED, hashBlock := 9 })] }

/-- C4 witness wallet: unconfirmed transaction 1, with transaction 2
registered as spending its output 0 and also unconfirmed. -/
def C4chainWallet : Wallet :=
  { mapWallet := [(1, {}), (2, {})], mapTxSpends := [((1, 0), 2)] }

theorem length_appendToFront (cms : List Nat) (ws : List Witness) :
    (appendToFront cms ws).length = ws.length := by
  cases ws <;> simp [appendToFront]

theorem witness_length_le_of_op (nd : NoteData) (op : WitnessOp)
    (h : nd.witnesses.length ≤ WITNESS_CACHE_SIZE) :
    (applyWitnessOp nd op).witnesses.length ≤ WITNESS_CACHE_SIZE := by
  cases op with
  | extend d bh cms =>
    simp only [applyWitnessOp, buildWitnessStep]
    split
    · rw [length_appendToFront]
      exact List.length_take_le _ _
    · exact h
  | rewind d ht =>
    simp only [applyWitnessOp, decrementNoteWitness]
    split
    · split
      · split
        · simpa using Nat.le_trans (Nat.sub_le _ 1) h
        · exact h
      · exact h
    · exact h

/-- C1: for every note with a cached nullifier, after any sequence of
witness-cache extend (`BuildWitnessCache` folding in a new block) and rewind
(`DecrementNoteWitnesses`) steps, the length of the note's witness buffer
stays at most `WITNESS_CACHE_SIZE`. -/
theorem C1_witness_cache_bound (nd : NoteData) (ops : List WitnessOp)
    (h : nd.witnesses.length ≤ WITNESS_CACHE_SIZE) :
    (applyWitnessOps nd ops).witnesses.length ≤ WITNESS_CACHE_SIZE := by
  induction ops generalizing nd with
  | nil => exact h
  | cons op ops ih => exact ih _ (witness_length_le_of_op nd op h)

/-- Witness for C1 at a concrete note and operation sequence. -/
theorem C1_witness_cache_bound_witness :
    ({ witnesses := [[1]], witnessHeight := 5, nullifier := some 7 } :
        NoteData).witnesses.length ≤ WITNESS_CACHE_SIZE ∧
    (applyWitnessOps { witnesses := [[1]], witnessHeight := 5, nullifier := some 7 }
        [.extend 0 6 [2], .extend 0 7 [3], .rewind 0 7]).witnesses.length ≤
      WITNESS_CACHE_SIZE :=
  ⟨by decide, C1_witness_cache_bound _ _ (by decide)⟩

/-- A concrete two-entry witness buffer: front (newest) `[1]`, back (oldest)
`[2]`, with a cached nullifier and witness height 10. -/
def C3noteData : NoteData :=
  { witnesses := [[1], [2]], witnessHeight := 10, nullifier := some 0 }

/-- C3 counterexample: the claim says the rewind on disconnecting a block
drops the OLDEST witness entry; on a two-entry buffer the code
(wallet.cpp:1484,1499 `witnesses.pop_front()`) removes the FRONT entry,
which is the newest one, keeping the oldest — not `dropLast`. -/
theorem C3_counterexample :
    (decrementNoteWitness 0 10 C3noteData).witnesses = [[2]] ∧
    C3noteData.witnesses.dropLast = [[1]] ∧
    (decrementNoteWitness 0 10 C3noteData).witnesses ≠ C3noteData.witnesses.dropLast := by
  decide

/-- C3 (amended): for every note with a cached nullifier whose spend depth is
within the cache bound and whose witness height does not exceed the
disconnected block's height, the rewind drops the NEWEST (front) witness
entry and sets `witnessHeight` to `nHeight - 1` when more than one entry is
present; and the last remaining witness entry is never dropped (a nonempty
buffer stays nonempty). -/
theorem C3_rewind_drops_newest (nd : NoteData) (spendDepth nHeight : Int) :
    (nd.nullifier.isSome → spendDepth ≤ (WITNESS_CACHE_SIZE : Int) →
      nd.witnessHeight ≤ nHeight → 1 < nd.witnesses.length →
      (decrementNoteWitness spendDepth nHeight nd).witnesses = nd.witnesses.tail ∧
      (decrementNoteWitness spendDepth nHeight nd).witnessHeight = nHeight - 1) ∧
    (nd.witnesses ≠ [] → (decrementNoteWitness spendDepth nHeight nd).witnesses ≠ []) := by
  constructor
  · intro h1 h2 h3 h4
    simp [decrementNoteWitness, h1, h2, h3, h4]
  · intro hne
    simp only [decrementNoteWitness]
    split
    · split
      · split
        · rename_i hlen
          show nd.witnesses.tail ≠ []
          apply List.ne_nil_of_length_pos
          have ht : nd.witnesses.tail.length = nd.witnesses.length - 1 :=
            List.length_tail _
          omega
        · exact hne
      · exact hne
    · exact hne

/-- Witness for C3 (amended) at a concrete note. -/
theorem C3_rewind_drops_newest_witness :
    ((C3noteData.nullifier.isSome → (0 : Int) ≤ (WITNESS_CACHE_SIZE : Int) →
      C3noteData.witnessHeight ≤ 10 → 1 < C3noteData.witnesses.length →
      (decrementNoteWitness 0 10 C3noteData).witnesses = C3noteData.witnesses.tail ∧
      (decrementNoteWitness 0 10 C3noteData).witnessHeight = 10 - 1) ∧
    (C3noteData.witnesses ≠ [] → (decrementNoteWitness 0 10 C3noteData).witnesses ≠ [])) :=
  C3_rewind_drops_newest C3noteData 0 10

theorem foldl_preserves {α β : Type} (proj : Wallet → β) (f : Wallet → α → Wallet)
    (hf : ∀ w a, proj (f w a) = proj w) :
    ∀ (l : List α) (w : Wallet), proj (l.foldl f w) = proj w := by
  intro l
  induction l with
  | nil => intro w; rfl
  | cons a l ih => intro w; rw [List.foldl_cons, ih, hf]

theorem addToSpends_mapWallet (w : Wallet) (id : TxId) :
    (w.AddToSpends id).mapWallet = w.mapWallet := by
  unfold Wallet.AddToSpends
  cases hw : w.lookupTx id with
  | none => rfl
  | some tx =>
    by_cases hcb : tx.isCoinBase = true
    · simp [hcb]
    · simp only [Bool.not_eq_true] at hcb
      simp only [hcb, Bool.false_eq_true, if_false]
      rw [foldl_preserves Wallet.mapWallet
          (fun acc nf => Wallet.AddToSaplingSpends acc nf id) (fun _ _ => rfl),
        foldl_preserves Wallet.mapWallet
          (fun acc nf => Wallet.AddToSproutSpends acc nf id) (fun _ _ => rfl),
        foldl_preserves Wallet.mapWallet
          (fun acc op => Wallet.AddToTransparentSpends acc op id) (fun _ _ => rfl)]

theorem addToSpends_nOrderPosNext (w : Wallet) (id : TxId) :
    (w.AddToSpends id).nOrderPosNext = w.nOrderPosNext := by
  unfold Wallet.AddToSpends
  cases hw : w.lookupTx id with
  | none => rfl
  | some tx =>
    by_cases hcb : tx.isCoinBase = true
    · simp [hcb]
    · simp only [Bool.not_eq_true] at hcb
      simp only [hcb, Bool.false_eq_true, if_false]
      rw [foldl_preserves Wallet.nOrderPosNext
          (fun acc nf => Wallet.AddToSaplingSpends acc nf id) (fun _ _ => rfl),
        foldl_preserves Wallet.nOrderPosNext
          (fun acc nf => Wallet.AddToSproutSpends acc nf id) (fun _ _ => rfl),
        foldl_preserves Wallet.nOrderPosNext
          (fun acc op => Wallet.AddToTransparentSpends acc op id) (fun _ _ => rfl)]

theorem lookupTx_eq_of_mapWallet_eq {v u : Wallet} (h : v.mapWallet = u.mapWallet)
    (id : TxId) : v.lookupTx id = u.lookupTx id := by
  simp [Wallet.lookupTx, h]

theorem find?_append_of_none {α : Type} {l1 l2 : List α} {p : α → Bool}
    (h : l1.find? p = none) : (l1 ++ l2).find? p = l2.find? p := by
  induction l1 with
  | nil => rfl
  | cons a l ih =>
    cases hpa : p a with
    | true =>
      rw [List.find?_cons_of_pos _ hpa] at h
      exact Option.noConfusion h
    | false =>
      have hpa2 : ¬p a = true := by simp [hpa]
      rw [List.find?_cons_of_neg _ hpa2] at h
      rw [List.cons_append, List.find?_cons_of_neg _ hpa2]
      exact ih h

theorem wlookup_append_single (l : List (TxId × WalletTx)) (hash : TxId) (tx : WalletTx)
    (hl : wlookup l hash = none) :
    wlookup (l ++ [(hash, tx)]) hash = some tx := by
  unfold wlookup at hl ⊢
  have hfind : l.find? (fun e => e.1 == hash) = none := by
    cases hf : l.find? (fun e => e.1 == hash) with
    | none => rfl
    | some e =>
      rw [hf] at hl
      exact Option.noConfusion hl
  rw [find?_append_of_none hfind]
  simp [List.find?_cons]

/-- C9: if the conflicting block passed to `MarkConflicted` is unknown or
not part of the main chain (`getBlockDepth` returns 0, so the number of
conflict confirmations cannot be determined as negative), the wallet is
returned unchanged: no status, spend-index or counter modification. -/
theorem C9_mark_conflicted_noop (w : Wallet) (ch : Chain)
    (hashBlock : BlockHash) (hashTx : TxId) (h : ch.blockDepth hashBlock = 0) :
    w.MarkConflicted ch hashBlock hashTx = some w := by
  simp [Wallet.MarkConflicted, h]

/-- Witness for C9 on a chain that knows no blocks. -/
theorem C9_mark_conflicted_noop_witness :
    zeroChain.blockDepth 5 = 0 ∧
    Wallet.MarkConflicted {} zeroChain 5 7 = some {} :=
  ⟨rfl, C9_mark_conflicted_noop {} zeroChain 5 7 rfl⟩

theorem incOrderOutputs_eq (w : Wallet) (n : Nat) :
    incOrderOutputs w n = (List.range n).map (fun i : Nat => w.nOrderPosNext + (i : Int)) := by
  induction n generalizing w with
  | zero => rfl
  | succ k ih =>
    simp only [incOrderOutputs]
    rw [ih, List.range_succ_eq_map, List.map_cons, List.map_map]
    refine congrArg₂ List.cons (by simp [Wallet.IncOrderPosNext]) ?_
    refine List.map_congr_left ?_
    intro i _
    simp only [Wallet.IncOrderPosNext, Function.comp_apply]
    push_cast
    ring

/-- C10: `IncOrderPosNext` returns strictly increasing values across any
sequence of calls, and a newly inserted wallet transaction receives the
current counter value as its `nOrderPos` while the counter advances, so
insertion order indices are unique and monotonically increasing. -/
theorem C10_order_pos_monotone (w : Wallet) (n : Nat) (hash : TxId) (wtxIn : WalletTx)
    (hnew : w.lookupTx hash = none) :
    (incOrderOutputs w n).Pairwise (· < ·) ∧
    ∃ w2, w.AddToWallet hash wtxIn = some (w2, true, false) ∧
      (w2.lookupTx hash).map (·.nOrderPos) = some w.nOrderPosNext ∧
      w2.nOrderPosNext = w.nOrderPosNext + 1 := by
  constructor
  · rw [incOrderOutputs_eq]
    refine List.Pairwise.map _ (fun a b hab => ?_) (List.pairwise_lt_range n)
    omega
  · simp only [Wallet.AddToWallet, hnew]
    refine ⟨_, rfl, ?_, ?_⟩
    · rw [lookupTx_eq_of_mapWallet_eq (addToSpends_mapWallet _ _)]
      simp only [Wallet.lookupTx, Wallet.IncOrderPosNext]
      rw [wlookup_append_single _ _ _ hnew]
      rfl
    · rw [addToSpends_nOrderPosNext]
      rfl

/-- Witness for C10 at a concrete wallet and fresh transaction id. -/
theorem C10_order_pos_monotone_witness :
    Wallet.lookupTx {} 5 = none ∧
    ((incOrderOutputs {} 3).Pairwise (· < ·) ∧
      ∃ w2, Wallet.AddToWallet {} 5 {} = some (w2, true, false) ∧
        (w2.lookupTx 5).map (·.nOrderPos) = some (Wallet.nOrderPosNext {}) ∧
        w2.nOrderPosNext = Wallet.nOrderPosNext {} + 1) :=
  ⟨rfl, C10_order_pos_monotone {} 3 5 {} rfl⟩

/-- C8: whenever the computed change amount is positive, the change output
is omitted and its value folded into the fee exactly when the change output
would be dust at the discard rate or when the branch-and-bound (exact-fit)
selection path produced the inputs; otherwise a change output carrying that
amount is inserted at a valid position. -/
theorem C8_change_output (isDust : TxOut → Bool) (bnb_used : Bool) (randPos : Nat)
    (scriptChange : Nat) (nValueIn nValueToSelect nChangePosRequest : Int)
    (vout : List TxOut) (nFeeRet : Int)
    (hchange : 0 < nValueIn - nValueToSelect)
    (hreq : nChangePosRequest = -1 ∨
      (0 ≤ nChangePosRequest ∧ nChangePosRequest ≤ (vout.length : Int))) :
    ((isDust ⟨nValueIn - nValueToSelect, scriptChange⟩ || bnb_used) = true →
      addChangeOutput isDust bnb_used randPos scriptChange nValueIn nValueToSelect
          nChangePosRequest vout nFeeRet =
        .ok (vout, -1, nFeeRet + (nValueIn - nValueToSelect))) ∧
    (isDust ⟨nValueIn - nValueToSelect, scriptChange⟩ = false → bnb_used = false →
      ∃ pos : Nat, pos ≤ vout.length ∧
        addChangeOutput isDust bnb_used randPos scriptChange nValueIn nValueToSelect
            nChangePosRequest vout nFeeRet =
          .ok (vout.insertIdx pos ⟨nValueIn - nValueToSelect, scriptChange⟩,
            (pos : Int), nFeeRet)) := by
  constructor
  · intro hdb
    simp only [addChangeOutput]
    rw [if_pos hchange, if_pos hdb]
  · intro hd hb
    simp only [addChangeOutput]
    rw [if_pos hchange]
    have hdb : (isDust ⟨nValueIn - nValueToSelect, scriptChange⟩ || bnb_used) = false := by
      simp [hd, hb]
    rw [hdb]
    simp only [Bool.false_eq_true, if_false]
    rcases hreq with h1 | ⟨h2, h3⟩
    · subst h1
      rw [if_pos rfl]
      exact ⟨randPos % (vout.length + 1),
        Nat.le_of_lt_succ (Nat.mod_lt _ (Nat.succ_pos _)), rfl⟩
    · have hne : nChangePosRequest ≠ -1 := by omega
      rw [if_neg hne]
      have hcond : ¬((nChangePosRequest < 0 || (vout.length : Int) < nChangePosRequest) = true) := by
        simp only [Bool.or_eq_true, decide_eq_true_eq]
        omega
      rw [if_neg hcond]
      refine ⟨nChangePosRequest.toNat, by omega, ?_⟩
      rw [Int.toNat_of_nonneg h2]

/-- Witness for C8 at a concrete selection state, exercising the
dust-or-exact-fit branch and the change-insertion branch. -/
theorem C8_change_output_witness :
    (0 : Int) < 100 - 60 ∧ ((-1 : Int) = -1 ∨ (0 ≤ (-1 : Int) ∧ (-1 : Int) ≤ 1)) ∧
    (((fun o => decide (o.nValue < 10)) (⟨100 - 60, 3⟩ : TxOut) || false) = true →
      addChangeOutput (fun o => decide (o.nValue < 10)) false 0 3 100 60 (-1) [⟨50, 1⟩] 2 =
        .ok ([⟨50, 1⟩], -1, 2 + (100 - 60))) ∧
    ((fun o => decide (o.nValue < 10)) (⟨100 - 60, 3⟩ : TxOut) = false → false = false →
      ∃ pos : Nat, pos ≤ [(⟨50, 1⟩ : TxOut)].length ∧
        addChangeOutput (fun o => decide (o.nValue < 10)) false 0 3 100 60 (-1) [⟨50, 1⟩] 2 =
          .ok (([(⟨50, 1⟩ : TxOut)]).insertIdx pos ⟨100 - 60, 3⟩, (pos : Int), 2)) := by
  refine ⟨by norm_num, Or.inl rfl, ?_⟩
  exact C8_change_output (fun o => decide (o.nValue < 10)) false 0 3 100 60 (-1)
    [⟨50, 1⟩] 2 (by norm_num) (Or.inl rfl)

theorem spenderQualifies_eq_true_iff (ch : Chain) (w : Wallet) (id : TxId) :
    spenderQualifies ch w id = true ↔ ∃ wtx, w.lookupTx id = some wtx ∧
      (0 < wtx.GetDepthInMainChain ch ∨
        (wtx.GetDepthInMainChain ch = 0 ∧ wtx.isAbandoned = false)) := by
  unfold spenderQualifies
  cases h : w.lookupTx id with
  | none => simp
  | some wtx => simp [Bool.or_eq_true, Bool.and_eq_true, decide_eq_true_eq, Bool.not_eq_true']

theorem spentIn_eq_true_iff (ch : Chain) (w : Wallet) (ids : List TxId) :
    spentIn ch w ids = true ↔ ∃ id ∈ ids, spenderQualifies ch w id = true := by
  simp [spentIn, List.any_eq_true]

theorem mem_filterKey_map {α : Type} [DecidableEq α] [BEq α] [LawfulBEq α]
    (l : List (α × TxId)) (k : α) (id : TxId) :
    id ∈ (l.filter (fun e => e.1 == k)).map (·.2) ↔ (k, id) ∈ l := by
  simp only [List.mem_map, List.mem_filter, beq_iff_eq]
  constructor
  · rintro ⟨e, ⟨he, hk⟩, hid⟩
    have : e = (k, id) := by
      cases e
      simp_all
    rwa [this] at he
  · intro h
    exact ⟨(k, id), ⟨h, rfl⟩, rfl⟩

/-- C5 (amended): each of `IsSpent` / `IsSproutSpent` / `IsSaplingSpent`
returns true for its key if and only if some wallet transaction registered
for that key in the corresponding spend index has confirmation depth > 0,
or depth 0 and is not abandoned.  (No mempool check is performed; a
conflicted transaction is excluded only through its non-positive depth.) -/
theorem C5_spent_iff (ch : Chain) (w : Wallet) (op : Outpoint)
    (nfSprout nfSapling : Nat) :
    (w.IsSpent ch op = true ↔ ∃ id, (op, id) ∈ w.mapTxSpends ∧
      ∃ wtx, w.lookupTx id = some wtx ∧
        (0 < wtx.GetDepthInMainChain ch ∨
          (wtx.GetDepthInMainChain ch = 0 ∧ wtx.isAbandoned = false))) ∧
    (w.IsSproutSpent ch nfSprout = true ↔ ∃ id, (nfSprout, id) ∈ w.mapTxSproutNullifiers ∧
      ∃ wtx, w.lookupTx id = some wtx ∧
        (0 < wtx.GetDepthInMainChain ch ∨
          (wtx.GetDepthInMainChain ch = 0 ∧ wtx.isAbandoned = false))) ∧
    (w.IsSaplingSpent ch nfSapling = true ↔ ∃ id, (nfSapling, id) ∈ w.mapTxSaplingNullifiers ∧
      ∃ wtx, w.lookupTx id = some wtx ∧
        (0 < wtx.GetDepthInMainChain ch ∨
          (wtx.GetDepthInMainChain ch = 0 ∧ wtx.isAbandoned = false))) := by
  refine ⟨?_, ?_, ?_⟩
  · unfold Wallet.IsSpent
    rw [spentIn_eq_true_iff]
    constructor
    · rintro ⟨id, hmem, hq⟩
      exact ⟨id, (mem_filterKey_map _ _ _).mp hmem, (spenderQualifies_eq_true_iff _ _ _).mp hq⟩
    · rintro ⟨id, hmem, hq⟩
      exact ⟨id, (mem_filterKey_map _ _ _).mpr hmem, (spenderQualifies_eq_true_iff _ _ _).mpr hq⟩
  · unfold Wallet.IsSproutSpent
    rw [spentIn_eq_true_iff]
    constructor
    · rintro ⟨id, hmem, hq⟩
      exact ⟨id, (mem_filterKey_map _ _ _).mp hmem, (spenderQualifies_eq_true_iff _ _ _).mp hq⟩
    · rintro ⟨id, hmem, hq⟩
      exact ⟨id, (mem_filterKey_map _ _ _).mpr hmem, (spenderQualifies_eq_true_iff _ _ _).mpr hq⟩
  · unfold Wallet.IsSaplingSpent
    rw [spentIn_eq_true_iff]
    constructor
    · rintro ⟨id, hmem, hq⟩
      exact ⟨id, (mem_filterKey_map _ _ _).mp hmem, (spenderQualifies_eq_true_iff _ _ _).mp hq⟩
    · rintro ⟨id, hmem, hq⟩
      exact ⟨id, (mem_filterKey_map _ _ _).mpr hmem, (spenderQualifies_eq_true_iff _ _ _).mpr hq⟩

/-- C5 counterexample: an unconfirmed, non-abandoned spender that is NOT in
the mempool still makes `IsSpent` report true, while the spec's wording
(depth 0 requires mempool presence, `IsSpentSpec`) reports false. -/
theorem C5_counterexample :
    C5wallet.IsSpent zeroChain (1, 0) = true ∧
    C5wallet.IsSpentSpec zeroChain (1, 0) = false ∧
    (C5wallet.lookupTx 2).map (·.fInMempool) = some false ∧
    (C5wallet.lookupTx 2).map (fun tx => tx.GetDepthInMainChain zeroChain) = some 0 := by
  decide

theorem map_update_id (l : List (TxId × WalletTx)) (h : TxId) (tx : WalletTx)
    (hn : ∀ e ∈ l, e.1 ≠ h) :
    l.map (fun e => if e.1 = h then (h, tx) else e) = l := by
  conv_rhs => rw [← List.map_id l]
  apply List.map_congr_left
  intro e he
  rw [if_neg (hn e he)]
  rfl

theorem map_update_self (l : List (TxId × WalletTx)) (h : TxId) (tx : WalletTx)
    (hk : (l.map (·.1)).Nodup)
    (hl : (l.find? (fun e => e.1 == h)).map (·.2) = some tx) :
    l.map (fun e => if e.1 = h then (h, tx) else e) = l := by
  induction l with
  | nil => simp at hl
  | cons a l ih =>
    rw [List.map_cons] at hk
    rcases List.nodup_cons.mp hk with ⟨hna, hkl⟩
    by_cases ha : a.1 = h
    · have hfa : (a.1 == h) = true := by simp [ha]
      rw [List.find?_cons] at hl
      simp only [hfa] at hl
      have htx : a.2 = tx := by simpa using hl
      rw [List.map_cons, if_pos ha]
      have hhead : ((h, tx) : TxId × WalletTx) = a := by
        cases a
        simp_all
      congr 1
      apply map_update_id
      intro e he hek
      apply hna
      have hmem : e.1 ∈ List.map (fun x => x.1) l := List.mem_map_of_mem (fun x => x.1) he
      rwa [hek, ← ha] at hmem
    · have hfa : (a.1 == h) = false := by simp [ha]
      rw [List.find?_cons] at hl
      simp only [hfa] at hl
      rw [List.map_cons, if_neg ha]
      rw [ih hkl hl]

theorem updateTx_self (w : Wallet) (h : TxId) (tx : WalletTx)
    (hk : w.txKeys.Nodup) (hl : w.lookupTx h = some tx) :
    w.updateTx h tx = w := by
  unfold Wallet.updateTx wupdate
  rw [map_update_self w.mapWallet h tx hk hl]

theorem mergeNoteMap_self {K : Type} [DecidableEq K] (m stored : List (K × NoteData))
    (h : m = stored) : mergeNoteMap m stored = some (stored, false) := by
  subst h
  simp [mergeNoteMap]

theorem updatedNoteData_self (wtxIn wtx : WalletTx)
    (hsp : wtxIn.mapSproutNoteData = wtx.mapSproutNoteData)
    (hsa : wtxIn.mapSaplingNoteData = wtx.mapSaplingNoteData) :
    UpdatedNoteData wtxIn wtx = some (wtx, false) := by
  unfold UpdatedNoteData
  rw [mergeNoteMap_self _ _ hsp, mergeNoteMap_self _ _ hsa]
  rfl

/-- C6: calling `AddToWallet` a second time with a transaction identical in
payload and confirmation status to the stored one reports no change
(neither inserted nor updated) and returns the wallet completely unchanged;
in particular no spend-index entry is duplicated, since `AddToSpends` runs
only on first insertion. -/
theorem C6_reinsert_unchanged (w : Wallet) (hash : TxId) (wtxIn wtx0 : WalletTx)
    (hk : w.txKeys.Nodup)
    (hl : w.lookupTx hash = some wtx0)
    (hst : wtxIn.status = wtx0.status)
    (hsp : wtxIn.mapSproutNoteData = wtx0.mapSproutNoteData)
    (hsa : wtxIn.mapSaplingNoteData = wtx0.mapSaplingNoteData)
    (hfm : wtxIn.fFromMe = wtx0.fFromMe)
    (hhw : wtxIn.hasWitness = wtx0.hasWitness) :
    w.AddToWallet hash wtxIn = some (w, false, false) := by
  simp only [Wallet.AddToWallet, hl]
  rw [show (decide (wtxIn.status ≠ wtx0.status)) = false by simp [hst]]
  simp only [Bool.false_eq_true, if_false]
  rw [updatedNoteData_self wtxIn wtx0 hsp hsa]
  simp only
  rw [show (wtxIn.fFromMe && decide (wtxIn.fFromMe ≠ wtx0.fFromMe)) = false by simp [hfm]]
  simp only [Bool.false_eq_true, if_false]
  rw [show (wtxIn.hasWitness && !wtx0.hasWitness) = false by rw [hhw]; simp]
  simp only [Bool.false_eq_true, if_false, Bool.or_false, Bool.false_or]
  rw [updateTx_self w hash wtx0 hk hl]

/-- Witness for C6 at a concrete one-transaction wallet. -/
theorem C6_reinsert_unchanged_witness :
    (Wallet.txKeys { mapWallet := [(5, {})] }).Nodup ∧
    (Wallet.lookupTx { mapWallet := [(5, {})] } 5 = some {}) ∧
    Wallet.AddToWallet { mapWallet := [(5, {})] } 5 {} =
      some ({ mapWallet := [(5, {})] }, false, false) :=
  ⟨by decide, rfl,
    C6_reinsert_unchanged { mapWallet := [(5, {})] } 5 {} {} (by decide) rfl rfl rfl rfl
      rfl rfl⟩


theorem alookup_cons {K : Type} [DecidableEq K] (k0 : K) (v : NoteData)
    (m : List (K × NoteData)) (k : K) :
    alookup ((k0, v) :: m) k = if k0 = k then some v else alookup m k := by
  by_cases h : k0 = k
  · simp [alookup, List.find?_cons, h]
  · simp [alookup, List.find?_cons, h]

theorem amod_cons {K : Type} [DecidableEq K] (k0 : K) (v : NoteData)
    (m : List (K × NoteData)) (j : K) (f : NoteData → NoteData) :
    amod ((k0, v) :: m) j f = (if k0 = j then (k0, f v) else (k0, v)) :: amod m j f := by
  by_cases h : k0 = j <;> simp [amod, h]

theorem alookup_amod_ne {K : Type} [DecidableEq K] (m : List (K × NoteData)) (j k : K)
    (f : NoteData → NoteData) (hjk : j ≠ k) :
    alookup (amod m j f) k = alookup m k := by
  induction m with
  | nil => rfl
  | cons e m ih =>
    cases e with
    | mk k0 v =>
      rw [amod_cons]
      by_cases h0 : k0 = j
      · rw [if_pos h0, alookup_cons, alookup_cons]
        have hk : k0 ≠ k := by rw [h0]; exact hjk
        rw [if_neg hk, if_neg hk, ih]
      · rw [if_neg h0, alookup_cons, alookup_cons, ih]

theorem alookup_amod_self {K : Type} [DecidableEq K] (m : List (K × NoteData)) (k : K)
    (f : NoteData → NoteData) :
    alookup (amod m k f) k = (alookup m k).map f := by
  induction m with
  | nil => rfl
  | cons e m ih =>
    cases e with
    | mk k0 v =>
      rw [amod_cons]
      by_cases h0 : k0 = k
      · rw [if_pos h0, alookup_cons, alookup_cons, if_pos h0, if_pos h0]
        rfl
      · rw [if_neg h0, alookup_cons, alookup_cons, if_neg h0, if_neg h0, ih]

theorem mergeStoredNote_other {K : Type} [DecidableEq K] (tmp tmp2 : List (K × NoteData))
    (e : K × NoteData) (k : K) (hek : e.1 ≠ k)
    (hstep : mergeStoredNote tmp e = some tmp2) :
    alookup tmp2 k = alookup tmp k := by
  unfold mergeStoredNote at hstep
  by_cases hc : (alookup tmp e.1).isSome ∧ 0 < e.2.witnesses.length
  · rw [if_pos hc] at hstep
    by_cases hs : (alookup (amod tmp e.1 fun nd => { nd with witnesses := e.2.witnesses }) e.1).isSome
    · rw [if_pos hs] at hstep
      have h2 := Option.some.inj hstep
      rw [← h2, alookup_amod_ne _ _ _ _ hek, alookup_amod_ne _ _ _ _ hek]
    · rw [if_neg hs] at hstep
      exact Option.noConfusion hstep
  · rw [if_neg hc] at hstep
    by_cases hs : (alookup tmp e.1).isSome
    · rw [if_pos hs] at hstep
      have h2 := Option.some.inj hstep
      rw [← h2, alookup_amod_ne _ _ _ _ hek]
    · rw [if_neg hs] at hstep
      exact Option.noConfusion hstep

theorem mergeStoredNote_at_key {K : Type} [DecidableEq K] (tmp : List (K × NoteData))
    (k : K) (ndI ndS : NoteData) (hI : alookup tmp k = some ndI)
    (hw : ndS.witnesses ≠ []) :
    ∃ tmp2, mergeStoredNote tmp (k, ndS) = some tmp2 ∧
      alookup tmp2 k =
        some { ndI with witnesses := ndS.witnesses, witnessHeight := ndS.witnessHeight } := by
  unfold mergeStoredNote
  have hlen : 0 < ndS.witnesses.length := List.length_pos.mpr hw
  have hc : (alookup tmp k).isSome ∧ 0 < ndS.witnesses.length := ⟨by simp [hI], hlen⟩
  rw [if_pos hc]
  have h1 : alookup (amod tmp k fun nd => { nd with witnesses := ndS.witnesses }) k =
      some { ndI with witnesses := ndS.witnesses } := by
    rw [alookup_amod_self, hI]
    rfl
  have hs : (alookup (amod tmp k fun nd => { nd with witnesses := ndS.witnesses }) k).isSome := by
    simp [h1]
  rw [if_pos hs]
  refine ⟨_, rfl, ?_⟩
  rw [alookup_amod_self, h1]
  rfl

theorem foldlM_merge_preserve {K : Type} [DecidableEq K] (k : K) :
    ∀ (stored : List (K × NoteData)) (tmp res : List (K × NoteData)),
    (∀ e ∈ stored, e.1 ≠ k) →
    stored.foldlM mergeStoredNote tmp = some res →
    alookup res k = alookup tmp k := by
  intro stored
  induction stored with
  | nil =>
    intro tmp res _ hfold
    simp only [List.foldlM_nil] at hfold
    rw [Option.some.inj hfold]
  | cons e es ih =>
    intro tmp res hne hfold
    rw [List.foldlM_cons] at hfold
    cases hstep : mergeStoredNote tmp e with
    | none =>
      rw [hstep] at hfold
      exact Option.noConfusion hfold
    | some tmp2 =>
      rw [hstep] at hfold
      have hfold2 : es.foldlM mergeStoredNote tmp2 = some res := hfold
      have h2 := ih tmp2 res (fun x hx => hne x (List.mem_cons_of_mem e hx)) hfold2
      rw [h2, mergeStoredNote_other tmp tmp2 e k (hne e (List.mem_cons_self e es)) hstep]

theorem foldlM_merge_main {K : Type} [DecidableEq K] (k : K) (ndI ndS : NoteData)
    (hw : ndS.witnesses ≠ []) :
    ∀ (stored : List (K × NoteData)) (tmp res : List (K × NoteData)),
    (stored.map (·.1)).Nodup →
    (k, ndS) ∈ stored →
    alookup tmp k = some ndI →
    stored.foldlM mergeStoredNote tmp = some res →
    alookup res k =
      some { ndI with witnesses := ndS.witnesses, witnessHeight := ndS.witnessHeight } := by
  intro stored
  induction stored with
  | nil =>
    intro tmp res _ hmem
    exact absurd hmem (List.not_mem_nil _)
  | cons e es ih =>
    intro tmp res hnodup hmem hI hfold
    rw [List.map_cons] at hnodup
    rcases List.nodup_cons.mp hnodup with ⟨hna, hnes⟩
    rw [List.foldlM_cons] at hfold
    rcases List.mem_cons.mp hmem with hhead | htail
    · rcases mergeStoredNote_at_key tmp k ndI ndS hI hw with ⟨tmp2, hstep, hlook⟩
      rw [← hhead, hstep] at hfold
      have hfold2 : es.foldlM mergeStoredNote tmp2 = some res := hfold
      have hkeys : ∀ x ∈ es, x.1 ≠ k := by
        intro x hx hxk
        apply hna
        rw [← hhead]
        simpa [hxk] using List.mem_map_of_mem (fun y => y.1) hx
      rw [foldlM_merge_preserve k es tmp2 res hkeys hfold2, hlook]
    · have hek : e.1 ≠ k := by
        intro hk
        apply hna
        rw [hk]
        simpa using List.mem_map_of_mem (fun y => y.1) htail
      cases hstep : mergeStoredNote tmp e with
      | none =>
        rw [hstep] at hfold
        exact Option.noConfusion hfold
      | some tmp2 =>
        rw [hstep] at hfold
        have hfold2 : es.foldlM mergeStoredNote tmp2 = some res := hfold
        have hI2 : alookup tmp2 k = some ndI := by
          rw [mergeStoredNote_other tmp tmp2 e k hek hstep, hI]
        exact ih tmp2 res hnes htail hI2 hfold2

/-- C7: when `UpdatedNoteData` merges an incoming copy of a transaction into
the stored one, a note outpoint present in both the stored and incoming
note-data maps whose stored record carries at least one cached witness
keeps the stored witnesses: they are never replaced by the incoming copy's
(possibly empty) witness list.  Stated for the shared per-variant merge
`mergeNoteMap`, which `UpdatedNoteData` applies to both the Sprout and the
Sapling map. -/
theorem C7_witnesses_preserved {K : Type} [DecidableEq K]
    (incoming stored : List (K × NoteData)) (k : K) (ndI ndS : NoteData)
    (hnodup : (stored.map (·.1)).Nodup)
    (hS : alookup stored k = some ndS)
    (hI : alookup incoming k = some ndI)
    (hw : ndS.witnesses ≠ [])
    (res : List (K × NoteData) × Bool)
    (hmerge : mergeNoteMap incoming stored = some res) :
    ∃ nd, alookup res.1 k = some nd ∧ nd.witnesses = ndS.witnesses := by
  unfold mergeNoteMap at hmerge
  by_cases hcond : (incoming.isEmpty || decide (incoming = stored)) = true
  · rw [if_pos hcond] at hmerge
    rcases Bool.or_eq_true_iff.mp hcond with hemp | heq
    · rw [List.isEmpty_iff.mp hemp] at hI
      simp [alookup] at hI
    · have h2 := Option.some.inj hmerge
      rw [← h2]
      exact ⟨ndS, hS, rfl⟩
  · rw [if_neg hcond] at hmerge
    cases hfold : stored.foldlM mergeStoredNote incoming with
    | none =>
      rw [hfold] at hmerge
      exact Option.noConfusion hmerge
    | some m =>
      rw [hfold] at hmerge
      have hres : (m, true) = res := by
        have := hmerge
        simpa using this
      have hmem : (k, ndS) ∈ stored := by
        unfold alookup at hS
        cases hfind : stored.find? (fun e => decide (e.1 = k)) with
        | none =>
          rw [hfind] at hS
          exact Option.noConfusion hS
        | some e0 =>
          rw [hfind] at hS
          have he0 : e0.2 = ndS := by simpa using hS
          have hp := List.find?_some hfind
          have hk0 : e0.1 = k := by simpa using hp
          have he : e0 = (k, ndS) := by
            cases e0
            simp_all
          rw [← he]
          exact List.mem_of_find?_eq_some hfind
      have hmain := foldlM_merge_main k ndI ndS hw stored incoming m hnodup hmem hI hfold
      rw [← hres]
      exact ⟨_, hmain, rfl⟩

/-- Witness for C7 at a concrete incoming/stored pair: the incoming copy has
an empty witness list, the stored record one witness; the merge keeps the
stored witness. -/
theorem C7_witnesses_preserved_witness :
    (([((0 : Nat), ({ witnesses := [[5]], witnessHeight := 3 } : NoteData))].map (·.1)).Nodup ∧
      alookup [((0 : Nat), ({ witnesses := [[5]], witnessHeight := 3 } : NoteData))] 0 =
        some { witnesses := [[5]], witnessHeight := 3 } ∧
      alookup [((0 : Nat), ({ witnesses := [] } : NoteData))] 0 = some { witnesses := [] } ∧
      ({ witnesses := [[5]], witnessHeight := 3 } : NoteData).witnesses ≠ [] ∧
      mergeNoteMap [((0 : Nat), ({ witnesses := [] } : NoteData))]
          [((0 : Nat), ({ witnesses := [[5]], witnessHeight := 3 } : NoteData))] =
        some ([((0 : Nat), ({ witnesses := [[5]], witnessHeight := 3 } : NoteData))], true)) ∧
    ∃ nd, alookup [((0 : Nat), ({ witnesses := [[5]], witnessHeight := 3 } : NoteData))] 0 =
        some nd ∧
      nd.witnesses = ({ witnesses := [[5]], witnessHeight := 3 } : NoteData).witnesses := by
  refine ⟨⟨by decide, by decide, by decide, by decide, by decide⟩, ?_⟩
  have h := C7_witnesses_preserved
    [((0 : Nat), ({ witnesses := [] } : NoteData))]
    [((0 : Nat), ({ witnesses := [[5]], witnessHeight := 3 } : NoteData))]
    0 { witnesses := [] } { witnesses := [[5]], witnessHeight := 3 }
    (by decide) (by decide) (by decide) (by decide)
    ([((0 : Nat), ({ witnesses := [[5]], witnessHeight := 3 } : NoteData))], true)
    (by decide)
  exact h

theorem mapTxSpends_updateTx (w : Wallet) (h : TxId) (tx : WalletTx) :
    (w.updateTx h tx).mapTxSpends = w.mapTxSpends := rfl

theorem txKeys_updateTx (w : Wallet) (h : TxId) (tx : WalletTx) :
    (w.updateTx h tx).txKeys = w.txKeys := by
  unfold Wallet.updateTx Wallet.txKeys wupdate
  simp only [List.map_map]
  apply List.map_congr_left
  intro e _
  by_cases he : e.1 = h
  · simp [Function.comp, he]
  · simp [Function.comp, he]

theorem wlookup_cons (k0 : TxId) (v : WalletTx) (rest : List (TxId × WalletTx))
    (j : TxId) :
    wlookup ((k0, v) :: rest) j = if k0 = j then some v else wlookup rest j := by
  by_cases h : k0 = j
  · simp [wlookup, List.find?_cons, h]
  · simp [wlookup, List.find?_cons, h]

theorem wupdate_cons (k0 : TxId) (v : WalletTx) (rest : List (TxId × WalletTx))
    (h : TxId) (tx : WalletTx) :
    wupdate ((k0, v) :: rest) h tx =
      (if k0 = h then (h, tx) else (k0, v)) :: wupdate rest h tx := by
  by_cases hk : k0 = h <;> simp [wupdate, hk]

theorem wlookup_wupdate (h j : TxId) (tx : WalletTx) :
    ∀ l : List (TxId × WalletTx),
    wlookup (wupdate l h tx) j =
      if j = h then (if (wlookup l h).isSome then some tx else none)
      else wlookup l j := by
  intro l
  induction l with
  | nil => by_cases hj : j = h <;> simp [wlookup, wupdate, hj]
  | cons e l ih =>
    cases e with
    | mk k0 v =>
      rw [wupdate_cons]
      by_cases hk0h : k0 = h
      · rw [if_pos hk0h]
        by_cases hjh : j = h
        · subst hjh
          rw [wlookup_cons, if_pos rfl, if_pos rfl, wlookup_cons, if_pos hk0h]
          simp
        · have hhj : h ≠ j := fun hh => hjh hh.symm
          have hk0j : k0 ≠ j := by rw [hk0h]; exact hhj
          rw [wlookup_cons, if_neg hhj, ih, if_neg hjh, if_neg hjh, wlookup_cons,
            if_neg hk0j]
      · rw [if_neg hk0h]
        rw [wlookup_cons]
        by_cases hk0j : k0 = j
        · have hjh : j ≠ h := by rw [← hk0j]; exact hk0h
          rw [if_pos hk0j, if_neg hjh, wlookup_cons, if_pos hk0j]
        · rw [if_neg hk0j, ih]
          by_cases hjh : j = h
          · rw [if_pos hjh, if_pos hjh, wlookup_cons, if_neg hk0h]
          · rw [if_neg hjh, if_neg hjh, wlookup_cons, if_neg hk0j]

theorem lookupTx_updateTx (w : Wallet) (h j : TxId) (tx : WalletTx) :
    (w.updateTx h tx).lookupTx j =
      if j = h then (if (w.lookupTx h).isSome then some tx else none)
      else w.lookupTx j := by
  unfold Wallet.updateTx Wallet.lookupTx
  exact wlookup_wupdate h j tx w.mapWallet

theorem lookupTx_isSome_iff (w : Wallet) (h : TxId) :
    (w.lookupTx h).isSome ↔ h ∈ w.txKeys := by
  unfold Wallet.lookupTx Wallet.txKeys wlookup
  cases hf : w.mapWallet.find? (fun e => e.1 == h) with
  | none =>
    constructor
    · intro hs
      exact absurd hs (by simp)
    · intro hmem
      exfalso
      rcases List.mem_map.mp hmem with ⟨e, he, hek⟩
      have h2 := List.find?_eq_none.mp hf e he
      simp [hek] at h2
  | some e0 =>
    constructor
    · intro _
      have hp := List.find?_some hf
      have hk0 : e0.1 = h := by simpa using hp
      rw [← hk0]
      exact List.mem_map_of_mem (fun x => x.1) (List.mem_of_find?_eq_some hf)
    · intro _
      simp

theorem mem_todoInsert (x y : TxId) (t : List TxId) :
    y ∈ todoInsert x t ↔ y = x ∨ y ∈ t := by
  induction t with
  | nil => simp [todoInsert]
  | cons z t ih =>
    unfold todoInsert
    by_cases hxz : x = z
    · rw [if_pos hxz]
      subst hxz
      simp only [List.mem_cons]
      tauto
    · rw [if_neg hxz]
      by_cases hlt : x < z
      · rw [if_pos hlt]
        simp only [List.mem_cons]
        try tauto
      · rw [if_neg hlt]
        simp only [List.mem_cons, ih]
        tauto

theorem sorted_todoInsert (x : TxId) (t : List TxId) (h : List.Sorted (· < ·) t) :
    List.Sorted (· < ·) (todoInsert x t) := by
  induction t with
  | nil => simp [todoInsert]
  | cons y ys ih =>
    unfold todoInsert
    rcases List.sorted_cons.mp h with ⟨hy, hys⟩
    by_cases hxy : x = y
    · rw [if_pos hxy]
      exact h
    · rw [if_neg hxy]
      by_cases hlt : x < y
      · rw [if_pos hlt]
        apply List.sorted_cons.mpr
        refine ⟨?_, h⟩
        intro b hb
        rcases List.mem_cons.mp hb with rfl | hbys
        · exact hlt
        · exact lt_trans hlt (hy b hbys)
      · rw [if_neg hlt]
        apply List.sorted_cons.mpr
        refine ⟨?_, ih hys⟩
        intro b hb
        rcases (mem_todoInsert x b ys).mp hb with rfl | hbys
        · exact Nat.lt_of_le_of_ne (Nat.le_of_not_lt hlt) (fun hh => hxy hh.symm)
        · exact hy b hbys

theorem mem_enqueue (d : List TxId) :
    ∀ (s : List TxId) (t : List TxId) (y : TxId),
    (y ∈ s.foldl (fun acc x => if x ∈ d then acc else todoInsert x acc) t ↔
      y ∈ t ∨ (y ∈ s ∧ y ∉ d)) := by
  intro s
  induction s with
  | nil => simp
  | cons a s ih =>
    intro t y
    rw [List.foldl_cons]
    by_cases had : a ∈ d
    · rw [if_pos had, ih]
      simp only [List.mem_cons]
      constructor
      · rintro (h | ⟨h1, h2⟩)
        · exact Or.inl h
        · exact Or.inr ⟨Or.inr h1, h2⟩
      · rintro (h | ⟨h1 | h1, h2⟩)
        · exact Or.inl h
        · rw [h1] at h2; exact absurd had h2
        · exact Or.inr ⟨h1, h2⟩
    · rw [if_neg had, ih, mem_todoInsert]
      simp only [List.mem_cons]
      constructor
      · rintro ((h | h) | ⟨h1, h2⟩)
        · exact Or.inr ⟨Or.inl h, by rw [h]; exact had⟩
        · exact Or.inl h
        · exact Or.inr ⟨Or.inr h1, h2⟩
      · rintro (h | ⟨h1 | h1, h2⟩)
        · exact Or.inl (Or.inr h)
        · exact Or.inl (Or.inl h1)
        · exact Or.inr ⟨h1, h2⟩

theorem sorted_enqueue (d : List TxId) :
    ∀ (s : List TxId) (t : List TxId), List.Sorted (· < ·) t →
    List.Sorted (· < ·) (s.foldl (fun acc x => if x ∈ d then acc else todoInsert x acc) t) := by
  intro s
  induction s with
  | nil => intro t ht; exact ht
  | cons a s ih =>
    intro t ht
    rw [List.foldl_cons]
    by_cases had : a ∈ d
    · rw [if_pos had]
      exact ih t ht
    · rw [if_neg had]
      exact ih _ (sorted_todoInsert a t ht)

theorem toFinset_enqueue (d : List TxId) :
    ∀ (s : List TxId) (t : List TxId),
    (s.foldl (fun acc x => if x ∈ d then acc else todoInsert x acc) t).toFinset =
      t.toFinset ∪ (s.toFinset \ d.toFinset) := by
  intro s t
  ext z
  simp only [List.mem_toFinset, Finset.mem_union, Finset.mem_sdiff, mem_enqueue]

theorem potential_pop (S T D : Finset TxId) (now : TxId) (hnow : now ∉ T) :
    T.card + (S \ (insert now D ∪ T)).card + 1 =
      (insert now T).card + (S \ (D ∪ insert now T)).card := by
  rw [Finset.card_insert_of_not_mem hnow]
  have hset : insert now D ∪ T = D ∪ insert now T := by
    ext z
    simp only [Finset.mem_union, Finset.mem_insert]
    tauto
  rw [hset]
  ring

theorem potential_mark (S Sp T D : Finset TxId) (now : TxId)
    (hSp : Sp ⊆ S) (hnow : now ∉ T) :
    (T ∪ (Sp \ insert now D)).card +
      (S \ (insert now D ∪ (T ∪ (Sp \ insert now D)))).card + 1 =
      (insert now T).card + (S \ (D ∪ insert now T)).card := by
  have h1 : (T ∪ (Sp \ insert now D)).card = T.card + ((Sp \ insert now D) \ T).card := by
    rw [Finset.union_comm, ← Finset.card_sdiff_add_card]
    omega
  have h2 : insert now D ∪ (T ∪ (Sp \ insert now D)) =
      (D ∪ insert now T) ∪ ((Sp \ insert now D) \ T) := by
    ext z
    simp only [Finset.mem_union, Finset.mem_insert, Finset.mem_sdiff]
    tauto
  have h4 : (Sp \ insert now D) \ T ⊆ S \ (D ∪ insert now T) := by
    intro z hz
    simp only [Finset.mem_sdiff, Finset.mem_insert, Finset.mem_union] at hz ⊢
    refine ⟨hSp hz.1.1, ?_⟩
    tauto
  have h3 : S \ ((D ∪ insert now T) ∪ ((Sp \ insert now D) \ T)) =
      (S \ (D ∪ insert now T)) \ ((Sp \ insert now D) \ T) := by
    ext z
    simp only [Finset.mem_sdiff, Finset.mem_union]
    tauto
  have h5 := Finset.card_sdiff h4
  have h6 := Finset.card_le_card h4
  rw [h1, h2, h3, h5, Finset.card_insert_of_not_mem hnow]
  omega

theorem spendIdSet_updateTx (w : Wallet) (h : TxId) (tx : WalletTx) :
    spendIdSet (w.updateTx h tx) = spendIdSet w := rfl

theorem spendersOf_updateTx (w : Wallet) (h : TxId) (tx : WalletTx) (now : TxId) :
    (w.updateTx h tx).spendersOf now = w.spendersOf now := rfl

theorem spendersOf_subset_spendIds (w : Wallet) (now : TxId) :
    (w.spendersOf now).toFinset ⊆ spendIdSet w := by
  intro z hz
  simp only [List.mem_toFinset, Wallet.spendersOf, List.mem_map, List.mem_filter] at hz
  rcases hz with ⟨e, ⟨he, _⟩, hz⟩
  simp only [spendIdSet, List.mem_toFinset, List.mem_map]
  exact ⟨e, he, hz⟩

theorem mem_spendersOf (w : Wallet) (b c : TxId) :
    c ∈ w.spendersOf b ↔ ∃ op : Outpoint, (op, c) ∈ w.mapTxSpends ∧ op.1 = b := by
  simp only [Wallet.spendersOf, List.mem_map, List.mem_filter, beq_iff_eq]
  constructor
  · rintro ⟨e, ⟨he, h1⟩, h2⟩
    refine ⟨e.1, ?_, h1⟩
    have he2 : (e.1, c) = e := by rw [← h2]
    rwa [he2]
  · rintro ⟨op, hmem, h1⟩
    exact ⟨(op, c), ⟨hmem, h1⟩, rfl⟩

theorem spendWalk_complete (chk g chkm : WalletTx → Bool) (m : WalletTx → WalletTx)
    (hm : ∀ wtx, chk wtx = true → chk (m wtx) = true)
    (hmm : ∀ wtx, chkm wtx = true → chkm (m wtx) = true) :
    ∀ (fuel : Nat) (todo done : List TxId) (w : Wallet),
    List.Sorted (· < ·) todo →
    (∀ x ∈ todo, x ∈ w.txKeys) →
    (∀ e ∈ w.mapTxSpends, e.2 ∈ w.txKeys) →
    (∀ id wtx, w.lookupTx id = some wtx → chk wtx = true) →
    (∀ id wtx, w.lookupTx id = some wtx → chkm wtx = true) →
    walkPotential w todo done ≤ fuel →
    ∃ w1, spendWalk chk g chkm m fuel todo done w = some w1 := by
  intro fuel
  induction fuel with
  | zero =>
    intro todo done w _ _ _ _ _ hpot
    cases todo with
    | nil => exact ⟨w, rfl⟩
    | cons now t =>
      exfalso
      have hpos : 0 < walkPotential w (now :: t) done := by
        unfold walkPotential
        have h1 : 0 < (now :: t).toFinset.card :=
          Finset.card_pos.mpr ⟨now, by simp⟩
        omega
      omega
  | succ fuel ih =>
    intro todo done w hsorted hkeys hsp hchk hchkm hpot
    cases todo with
    | nil => exact ⟨w, rfl⟩
    | cons now t =>
      have hnowk : now ∈ w.txKeys := hkeys now (List.mem_cons_self _ _)
      obtain ⟨wtx, hwtx⟩ : ∃ wtx, w.lookupTx now = some wtx :=
        Option.isSome_iff_exists.mp ((lookupTx_isSome_iff w now).mpr hnowk)
      have hchknow : chk wtx = true := hchk now wtx hwtx
      have hchkmnow : chkm wtx = true := hchkm now wtx hwtx
      rcases List.sorted_cons.mp hsorted with ⟨hlt, hsortt⟩
      have hnowt : now ∉ t := fun hmem => lt_irrefl now (hlt now hmem)
      simp only [spendWalk, hwtx]
      rw [if_neg (by simp [hchknow])]
      by_cases hg : g wtx = true
      · rw [if_pos hg, if_neg (by simp [hchkmnow])]
        apply ih
        · exact sorted_enqueue _ _ t hsortt
        · intro x hx
          rw [txKeys_updateTx]
          rcases (mem_enqueue _ _ t x).mp hx with hxt | ⟨hxs, _⟩
          · exact hkeys x (List.mem_cons_of_mem _ hxt)
          · rcases (mem_spendersOf w now x).mp hxs with ⟨op, hmem, _⟩
            exact hsp (op, x) hmem
        · intro e he
          rw [txKeys_updateTx]
          exact hsp e he
        · intro id wtx2 hlk
          rw [lookupTx_updateTx] at hlk
          by_cases hid : id = now
          · rw [if_pos hid, if_pos (by simp [hwtx])] at hlk
            have h2 : wtx2 = m wtx := (Option.some.inj hlk).symm
            rw [h2]
            exact hm wtx hchknow
          · rw [if_neg hid] at hlk
            exact hchk id wtx2 hlk
        · intro id wtx2 hlk
          rw [lookupTx_updateTx] at hlk
          by_cases hid : id = now
          · rw [if_pos hid, if_pos (by simp [hwtx])] at hlk
            have h2 : wtx2 = m wtx := (Option.some.inj hlk).symm
            rw [h2]
            exact hmm wtx hchkmnow
          · rw [if_neg hid] at hlk
            exact hchkm id wtx2 hlk
        · unfold walkPotential
          rw [spendIdSet_updateTx, toFinset_enqueue]
          have hmark := potential_mark (spendIdSet w) (w.spendersOf now).toFinset
            t.toFinset done.toFinset now (spendersOf_subset_spendIds w now)
            (by simpa using hnowt)
          unfold walkPotential at hpot
          simp only [List.toFinset_cons] at hpot ⊢
          omega
      · rw [if_neg hg]
        apply ih _ _ _ hsortt (fun x hx => hkeys x (List.mem_cons_of_mem _ hx)) hsp hchk
          hchkm
        unfold walkPotential at hpot ⊢
        have hpop := potential_pop (spendIdSet w) t.toFinset done.toFinset now
          (by simpa using hnowt)
        simp only [List.toFinset_cons] at hpot ⊢
        omega


theorem reach_closed (sp : List (Outpoint × TxId)) (done : List TxId)
    (hcl : ∀ x ∈ done, ∀ (op : Outpoint) (c : TxId), (op, c) ∈ sp → op.1 = x → c ∈ done) :
    ∀ x y, SpendReach sp x y → x ∈ done → y ∈ done := by
  intro x y h
  induction h with
  | refl => intro hx; exact hx
  | step op hr hmem hop ih =>
    intro hx
    exact hcl _ (ih hx) op _ hmem hop

theorem closed_done_reach (w0 : Wallet) (done : List TxId) (wfin : Wallet)
    (m : WalletTx → WalletTx)
    (hdone : ∀ id, id ∈ done → wfin.lookupTx id = (w0.lookupTx id).map m)
    (hclosed : ∀ x ∈ done, ∀ y ∈ w0.spendersOf x, y ∈ done) :
    ∀ x ∈ done, ∀ y, SpendReach w0.mapTxSpends x y →
      wfin.lookupTx y = (w0.lookupTx y).map m := by
  intro x hx y hreach
  have hcl2 : ∀ a ∈ done, ∀ (op : Outpoint) (c : TxId),
      (op, c) ∈ w0.mapTxSpends → op.1 = a → c ∈ done := by
    intro a ha op c hmem hop
    exact hclosed a ha c ((mem_spendersOf w0 a c).mpr ⟨op, hmem, hop⟩)
  exact hdone y (reach_closed w0.mapTxSpends done hcl2 x y hreach hx)

theorem spendWalk_closure (chk g chkm : WalletTx → Bool) (m : WalletTx → WalletTx)
    (w0 : Wallet)
    (hg : ∀ id wtx, w0.lookupTx id = some wtx → g wtx = true) :
    ∀ (fuel : Nat) (todo done : List TxId) (w wfin : Wallet),
    w.mapTxSpends = w0.mapTxSpends →
    List.Sorted (· < ·) todo →
    (∀ x ∈ todo, x ∉ done) →
    (∀ id, id ∉ done → w.lookupTx id = w0.lookupTx id) →
    (∀ id, id ∈ done → w.lookupTx id = (w0.lookupTx id).map m) →
    (∀ x ∈ done, ∀ y ∈ w0.spendersOf x, y ∈ done ∨ y ∈ todo) →
    spendWalk chk g chkm m fuel todo done w = some wfin →
    ∀ x, (x ∈ done ∨ x ∈ todo) → ∀ y, SpendReach w0.mapTxSpends x y →
      wfin.lookupTx y = (w0.lookupTx y).map m := by
  intro fuel
  induction fuel with
  | zero =>
    intro todo done w wfin hspends hsorted hdisj hagree hdone hclosed hrun x hx y hreach
    cases todo with
    | cons now t => simp [spendWalk] at hrun
    | nil =>
      have hw : w = wfin := by simpa [spendWalk] using hrun
      subst hw
      have hx2 : x ∈ done := by
        rcases hx with h | h
        · exact h
        · exact absurd h (List.not_mem_nil x)
      refine closed_done_reach w0 done w m hdone ?_ x hx2 y hreach
      intro a ha z hz
      rcases hclosed a ha z hz with h | h
      · exact h
      · exact absurd h (List.not_mem_nil z)
  | succ fuel ih =>
    intro todo done w wfin hspends hsorted hdisj hagree hdone hclosed hrun x hx y hreach
    cases todo with
    | nil =>
      have hw : w = wfin := by simpa [spendWalk] using hrun
      subst hw
      have hx2 : x ∈ done := by
        rcases hx with h | h
        · exact h
        · exact absurd h (List.not_mem_nil x)
      refine closed_done_reach w0 done w m hdone ?_ x hx2 y hreach
      intro a ha z hz
      rcases hclosed a ha z hz with h | h
      · exact h
      · exact absurd h (List.not_mem_nil z)
    | cons now t =>
      have hnowdone : now ∉ done := hdisj now (List.mem_cons_self _ _)
      have hageq : w.lookupTx now = w0.lookupTx now := hagree now hnowdone
      cases hw0 : w0.lookupTx now with
      | none =>
        have hwn : w.lookupTx now = none := by rw [hageq, hw0]
        simp only [spendWalk, hwn] at hrun
        exact Option.noConfusion hrun
      | some wtx =>
        have hwtx : w.lookupTx now = some wtx := by rw [hageq, hw0]
        have hgt : g wtx = true := hg now wtx hw0
        simp only [spendWalk, hwtx] at hrun
        by_cases hchk : chk wtx = false
        · rw [if_pos hchk] at hrun
          exact Option.noConfusion hrun
        · rw [if_neg hchk, if_pos hgt] at hrun
          by_cases hchkm2 : chkm wtx = false
          · rw [if_pos hchkm2] at hrun
            exact Option.noConfusion hrun
          rw [if_neg hchkm2] at hrun
          rcases List.sorted_cons.mp hsorted with ⟨hltall, hsortt⟩
          have hnowt : now ∉ t := fun hmem => lt_irrefl now (hltall now hmem)
          have hsps : w.spendersOf now = w0.spendersOf now := by
            unfold Wallet.spendersOf
            rw [hspends]
          refine ih _ (now :: done) (w.updateTx now (m wtx)) wfin ?_ ?_ ?_ ?_ ?_ ?_ hrun
            x ?_ y hreach
          · rw [mapTxSpends_updateTx]
            exact hspends
          · exact sorted_enqueue _ _ t hsortt
          · intro z hz
            rcases (mem_enqueue _ _ t z).mp hz with hzt | ⟨hzs, hznd⟩
            · intro hzd
              rcases List.mem_cons.mp hzd with rfl | hzd2
              · exact hnowt hzt
              · exact hdisj z (List.mem_cons_of_mem _ hzt) hzd2
            · exact hznd
          · intro id hid
            have hidnow : id ≠ now := fun hh => hid (by rw [hh]; exact List.mem_cons_self _ _)
            have hiddone : id ∉ done := fun hh => hid (List.mem_cons_of_mem _ hh)
            rw [lookupTx_updateTx, if_neg hidnow]
            exact hagree id hiddone
          · intro id hid
            rcases List.mem_cons.mp hid with rfl | hid2
            · rw [lookupTx_updateTx, if_pos rfl, if_pos (by simp [hwtx]), hw0]
              rfl
            · have hidnow : id ≠ now := by
                intro hh
                rw [hh] at hid2
                exact hnowdone hid2
              rw [lookupTx_updateTx, if_neg hidnow]
              exact hdone id hid2
          · intro a ha z hz
            rcases List.mem_cons.mp ha with rfl | ha2
            · by_cases hzd : z ∈ a :: done
              · exact Or.inl hzd
              · refine Or.inr ((mem_enqueue _ _ t z).mpr (Or.inr ⟨?_, hzd⟩))
                rw [hsps]
                exact hz
            · rcases hclosed a ha2 z hz with hzd | hzt
              · exact Or.inl (List.mem_cons_of_mem _ hzd)
              · rcases List.mem_cons.mp hzt with rfl | hzt2
                · exact Or.inl (List.mem_cons_self _ _)
                · exact Or.inr ((mem_enqueue _ _ t z).mpr (Or.inl hzt2))
          · rcases hx with hxd | hxt
            · exact Or.inl (List.mem_cons_of_mem _ hxd)
            · rcases List.mem_cons.mp hxt with rfl | hxt2
              · exact Or.inl (List.mem_cons_self _ _)
              · exact Or.inr ((mem_enqueue _ _ t x).mpr (Or.inl hxt2))

theorem lookupTx_mem (w : Wallet) (id : TxId) (wtx : WalletTx)
    (h : w.lookupTx id = some wtx) : ∃ e ∈ w.mapWallet, e.2 = wtx := by
  unfold Wallet.lookupTx wlookup at h
  cases hf : w.mapWallet.find? (fun e => e.1 == id) with
  | none =>
    rw [hf] at h
    exact Option.noConfusion h
  | some e0 =>
    rw [hf] at h
    exact ⟨e0, List.mem_of_find?_eq_some hf, by simpa using h⟩

/-- C2 counterexample: transaction 2 spends a Sapling nullifier of a note of
transaction 1 (and nothing else of it); after `MarkConflicted` on
transaction 1, transaction 1 is conflicted but transaction 2 is not — the
propagation walks only the transparent spend index, never the nullifier
indexes. -/
theorem C2_counterexample :
    (77, 2) ∈ C2wallet.mapTxSaplingNullifiers ∧
    ((C2wallet.lookupTx 1).map
      (fun tx => alookup tx.mapSaplingNoteData (1, 0))) =
        some (some { nullifier := some 77 }) ∧
    ((C2wallet.lookupTx 2).map (·.saplingNullifiers)) = some [77] ∧
    (C2wallet.MarkConflicted C2chain 9 1).map
        (fun w1 => ((w1.lookupTx 1).map (·.isConflicted),
          (w1.lookupTx 2).map (·.isConflicted))) =
      some (some true, some false) := by
  decide

/-- C2 (amended): if the conflicting block is known in the main chain and
every wallet transaction is currently less conflicted than it (e.g. all
unconfirmed or confirmed), then `MarkConflicted(hashBlock, hashTx)`
completes — terminating even on a cyclic spend graph — and every wallet
transaction transitively spending a TRANSPARENT output of `hashTx` (through
the `mapTxSpends` index; Sprout/Sapling nullifier spends are not walked, see
the counterexample) is marked conflicted with that block. -/
theorem C2_conflict_propagation (w : Wallet) (ch : Chain) (hashBlock : BlockHash)
    (hashTx : TxId)
    (hdepth : 1 ≤ ch.blockDepth hashBlock)
    (hseed : hashTx ∈ w.txKeys)
    (hsp : ∀ e ∈ w.mapTxSpends, e.2 ∈ w.txKeys)
    (hfresh : ∀ e ∈ w.mapWallet,
      -(ch.blockDepth hashBlock : Int) < e.2.GetDepthInMainChain ch) :
    ∃ w1, w.MarkConflicted ch hashBlock hashTx = some w1 ∧
      ∀ y, SpendReach w.mapTxSpends hashTx y →
        w1.lookupTx y = (w.lookupTx y).map (conflictMark hashBlock) := by
  have hcc : ¬(0 ≤ -(ch.blockDepth hashBlock : Int)) := by
    have : (1 : Int) ≤ (ch.blockDepth hashBlock : Int) := by exact_mod_cast hdepth
    omega
  have hg : ∀ id wtx, w.lookupTx id = some wtx →
      conflictGuard ch (-(ch.blockDepth hashBlock : Int)) wtx = true := by
    intro id wtx hlk
    rcases lookupTx_mem w id wtx hlk with ⟨e, he, hew⟩
    unfold conflictGuard
    rw [← hew]
    exact decide_eq_true (hfresh e he)
  have hpot : walkPotential w [hashTx] [] ≤ w.mapTxSpends.length + 2 := by
    unfold walkPotential spendIdSet
    have h1 : ([hashTx] : List TxId).toFinset.card = 1 := by simp
    have h2 : ((w.mapTxSpends.map (·.2)).toFinset \
        (([] : List TxId).toFinset ∪ ([hashTx] : List TxId).toFinset)).card ≤
        (w.mapTxSpends.map (·.2)).toFinset.card := by
      apply Finset.card_le_card
      intro z hz
      exact (Finset.mem_sdiff.mp hz).1
    have h3 : (w.mapTxSpends.map (·.2)).toFinset.card ≤
        (w.mapTxSpends.map (·.2)).length := List.toFinset_card_le _
    rw [List.length_map] at h3
    omega
  obtain ⟨w1, hrun⟩ := spendWalk_complete (fun _ => true)
    (conflictGuard ch (-(ch.blockDepth hashBlock : Int))) (fun _ => true)
    (conflictMark hashBlock)
    (fun _ _ => rfl) (fun _ _ => rfl) (w.mapTxSpends.length + 2) [hashTx] [] w
    (by simp)
    (by
      intro x hx
      rcases List.mem_singleton.mp hx with rfl
      exact hseed)
    hsp
    (fun _ _ _ => rfl)
    (fun _ _ _ => rfl)
    hpot
  refine ⟨w1, ?_, ?_⟩
  · unfold Wallet.MarkConflicted
    rw [if_neg hcc]
    exact hrun
  · intro y hreach
    exact spendWalk_closure (fun _ => true)
      (conflictGuard ch (-(ch.blockDepth hashBlock : Int))) (fun _ => true)
      (conflictMark hashBlock)
      w hg (w.mapTxSpends.length + 2) [hashTx] [] w w1 rfl (by simp)
      (by simp) (fun id _ => rfl) (by simp) (by simp) hrun
      hashTx (Or.inr (List.mem_singleton_self _)) y hreach

/-- Witness for C2 (amended) on the synthetic 3-cycle of mutual spends: the
walk terminates and conflicts all three transactions. -/
theorem C2_conflict_propagation_witness :
    (1 ≤ cycChain.blockDepth 9 ∧ 1 ∈ cycWallet.txKeys ∧
      (∀ e ∈ cycWallet.mapTxSpends, e.2 ∈ cycWallet.txKeys) ∧
      (∀ e ∈ cycWallet.mapWallet,
        -(cycChain.blockDepth 9 : Int) < e.2.GetDepthInMainChain cycChain)) ∧
    ∃ w1, cycWallet.MarkConflicted cycChain 9 1 = some w1 ∧
      ∀ y, SpendReach cycWallet.mapTxSpends 1 y →
        w1.lookupTx y = (cycWallet.lookupTx y).map (conflictMark 9) :=
  ⟨⟨by decide, by decide, by decide, by decide⟩,
    C2_conflict_propagation cycWallet cycChain 9 1 (by decide) (by decide)
      (by decide) (by decide)⟩

/-- C4 counterexample: a conflicted wallet transaction has confirmation
depth -3 — which is not greater than 0 — and is not in the mempool, so the
claim says `AbandonTransaction` must succeed; the code tests
`GetDepthInMainChain(...) != 0` and returns false. -/
theorem C4_counterexample :
    ((C4wallet.lookupTx 1).map (fun tx => tx.GetDepthInMainChain C2chain)) = some (-3) ∧
    ((C4wallet.lookupTx 1).map (·.fInMempool)) = some false ∧
    C4wallet.AbandonTransaction C2chain 1 = some (false, C4wallet) := by
  decide

theorem walkPotential_init (w : Wallet) (seed : TxId) :
    walkPotential w [seed] [] ≤ w.mapTxSpends.length + 2 := by
  unfold walkPotential spendIdSet
  have h1 : ([seed] : List TxId).toFinset.card = 1 := by simp
  have h2 : ((w.mapTxSpends.map (·.2)).toFinset \
      (([] : List TxId).toFinset ∪ ([seed] : List TxId).toFinset)).card ≤
      (w.mapTxSpends.map (·.2)).toFinset.card := by
    apply Finset.card_le_card
    intro z hz
    exact (Finset.mem_sdiff.mp hz).1
  have h3 : (w.mapTxSpends.map (·.2)).toFinset.card ≤
      (w.mapTxSpends.map (·.2)).length := List.toFinset_card_le _
  rw [List.length_map] at h3
  omega

/-- C4 (amended): `AbandonTransaction` returns false exactly when the
transaction has NONZERO confirmation depth — confirmed, or conflicted with
a known main-chain block, not merely depth > 0 — or is in the mempool;
otherwise it returns true and (when every wallet transaction is at depth 0,
not yet abandoned, and absent from the mempool — the cascade asserts
`!wtx.InMempool()` at wallet.cpp:2537 before marking) marks Abandoned every
wallet transaction transitively spending a transparent output of it. -/
theorem C4_abandon_zero_depth (w : Wallet) (ch : Chain) (hashTx : TxId)
    (origtx : WalletTx)
    (horig : w.lookupTx hashTx = some origtx)
    (hsp : ∀ e ∈ w.mapTxSpends, e.2 ∈ w.txKeys) :
    (origtx.GetDepthInMainChain ch ≠ 0 ∨ origtx.fInMempool = true →
      w.AbandonTransaction ch hashTx = some (false, w)) ∧
    (origtx.GetDepthInMainChain ch = 0 → origtx.fInMempool = false →
      (∀ e ∈ w.mapWallet, e.2.GetDepthInMainChain ch = 0 ∧
        e.2.isAbandoned = false ∧ e.2.fInMempool = false) →
      ∃ w1, w.AbandonTransaction ch hashTx = some (true, w1) ∧
        ∀ y, SpendReach w.mapTxSpends hashTx y →
          w1.lookupTx y = (w.lookupTx y).map abandonMark) := by
  constructor
  · intro hcond
    unfold Wallet.AbandonTransaction
    rw [horig]
    simp only
    rw [if_pos hcond]
  · intro hdepth0 hmem hall
    have hseed : hashTx ∈ w.txKeys := by
      apply (lookupTx_isSome_iff w hashTx).mp
      rw [horig]
      rfl
    have hmchk : ∀ wtx : WalletTx,
        abandonCheck ch wtx = true → abandonCheck ch (abandonMark wtx) = true := by
      intro wtx _
      unfold abandonCheck abandonMark
      simp [WalletTx.GetDepthInMainChain, WalletTx.isUnconfirmed, WalletTx.isAbandoned]
    have hchk : ∀ id wtx, w.lookupTx id = some wtx → abandonCheck ch wtx = true := by
      intro id wtx hlk
      rcases lookupTx_mem w id wtx hlk with ⟨e2, he2, hew2⟩
      unfold abandonCheck
      rw [← hew2, (hall e2 he2).1]
      decide
    have hchkmem : ∀ id wtx, w.lookupTx id = some wtx →
        abandonMempoolCheck wtx = true := by
      intro id wtx hlk
      rcases lookupTx_mem w id wtx hlk with ⟨e2, he2, hew2⟩
      unfold abandonMempoolCheck
      rw [← hew2, (hall e2 he2).2.2]
      rfl
    have hg : ∀ id wtx, w.lookupTx id = some wtx → abandonGuard ch wtx = true := by
      intro id wtx hlk
      rcases lookupTx_mem w id wtx hlk with ⟨e2, he2, hew2⟩
      unfold abandonGuard
      rw [← hew2, (hall e2 he2).1, (hall e2 he2).2.1]
      rfl
    obtain ⟨w1, hrun⟩ := spendWalk_complete (abandonCheck ch) (abandonGuard ch)
      abandonMempoolCheck abandonMark hmchk (fun wtx h => h)
      (w.mapTxSpends.length + 2) [hashTx] [] w
      (by simp)
      (by
        intro x hx
        rcases List.mem_singleton.mp hx with rfl
        exact hseed)
      hsp hchk hchkmem (walkPotential_init w hashTx)
    refine ⟨w1, ?_, ?_⟩
    · unfold Wallet.AbandonTransaction
      rw [horig]
      simp only
      rw [if_neg (by simp [hdepth0, hmem]), hrun]
      rfl
    · intro y hreach
      exact spendWalk_closure (abandonCheck ch) (abandonGuard ch) abandonMempoolCheck
        abandonMark w hg (w.mapTxSpends.length + 2) [hashTx] [] w w1 rfl (by simp)
        (by simp) (fun id _ => rfl) (by simp) (by simp) hrun
        hashTx (Or.inr (List.mem_singleton_self _)) y hreach

/-- Witness for C4 (amended) at a concrete two-transaction wallet: an
unconfirmed parent whose output is spent by an unconfirmed child. -/
theorem C4_abandon_zero_depth_witness :
    (C4chainWallet.lookupTx 1 = some {} ∧
      (∀ e ∈ C4chainWallet.mapTxSpends, e.2 ∈ C4chainWallet.txKeys)) ∧
    ((WalletTx.GetDepthInMainChain {} zeroChain ≠ 0 ∨ WalletTx.fInMempool {} = true →
      C4chainWallet.AbandonTransaction zeroChain 1 = some (false, C4chainWallet)) ∧
    (WalletTx.GetDepthInMainChain {} zeroChain = 0 → WalletTx.fInMempool {} = false →
      (∀ e ∈ C4chainWallet.mapWallet,
        e.2.GetDepthInMainChain zeroChain = 0 ∧ e.2.isAbandoned = false ∧
          e.2.fInMempool = false) →
      ∃ w1, C4chainWallet.AbandonTransaction zeroChain 1 = some (true, w1) ∧
        ∀ y, SpendReach C4chainWallet.mapTxSpends 1 y →
          w1.lookupTx y = (C4chainWallet.lookupTx y).map abandonMark)) :=
  ⟨⟨rfl, by decide⟩,
    C4_abandon_zero_depth C4chainWallet zeroChain 1 {} rfl (by decide)⟩
